import Mathlib

/-!
Verification of the dependency-resolution and environment-topology engine of
the `envie` tool, as a shallow embedding of the Rust sources
(`src/common/service_discovery.rs`, `src/common/environment.rs`,
`src/common/service_config.rs`, `src/commands/output.rs`).

Conventions of the embedding:
* Filesystem paths are lists of path components (`FsPath`); `Path::join`
  appends the split components of the argument.
* Rust string primitives (`starts_with`, `ends_with`, `split`, `contains`,
  `str::replace`) are modelled by structurally recursive functions over the
  character data of the string, so that every definition evaluates by kernel
  reduction.  For valid UTF-8 these agree with Rust's byte-level semantics.
* `std::collections::HashMap` is modelled as an association list with
  `lookupKey` / `insertKey` (insert replaces in place); `HashSet` as a list
  without duplicates.  Where the Rust code iterates a `HashSet` (whose order
  is unspecified), the embedding takes the iteration order as an explicit
  parameter constrained to be a permutation of the set's elements.
* File contents and external processes (YAML parsing, `terraform output`)
  are oracles supplied as function-valued fields of a context structure;
  the control flow around them is translated from the source.
-/

deriving instance DecidableEq for Except

namespace Envie

/-- Model of Rust `str::starts_with` (byte-prefix test) over character data. -/
def strStartsWith (s pre : String) : Bool :=
  pre.data.isPrefixOf s.data

/-- Model of Rust `str::ends_with` (byte-suffix test) over character data. -/
def strEndsWith (s suf : String) : Bool :=
  suf.data.isSuffixOf s.data

/-- Model of Rust `str::strip_prefix(pre).unwrap()` (only used after a
successful `starts_with` test, as in the source). -/
def strStripPrefix (s pre : String) : String :=
  String.mk (s.data.drop pre.data.length)

/-- Splitting a character list at every occurrence of `sep`; model of Rust
`str::split(sep)` for a one-character separator.  The result is never empty. -/
def splitOnChar (sep : Char) : List Char → List (List Char)
  | [] => [[]]
  | c :: rest =>
    match splitOnChar sep rest with
    | [] => [[]]
    | cur :: parts => if c = sep then [] :: cur :: parts else (c :: cur) :: parts

/-- Model of Rust `str::split(sep)` collected into a list of strings. -/
def strSplitOn (s : String) (sep : Char) : List String :=
  (splitOnChar sep s.data).map String.mk

/-- Filesystem paths, as lists of path components. -/
abbrev FsPath := List String

/-- Components of a relative path string, as produced by `Path::components`:
separators split the string, and empty and `.` components are dropped
(`..` components are kept). -/
def pathComponents (s : String) : List String :=
  (strSplitOn s '/').filter (fun c => c ≠ "" ∧ c ≠ ".")

/-- Model of Rust `Path::file_name` on a path given by its component list:
the last component, unless it is a parent-directory component. -/
def fileName (p : FsPath) : Option String :=
  match p.getLast? with
  | none => none
  | some c => if c = ".." then none else some c

/-- Rendering of a path for error messages (`Path::display`). -/
def displayPath (p : FsPath) : String :=
  String.intercalate "/" p

/-- Association-list lookup; model of `HashMap::get`. -/
def lookupKey (k : String) : List (String × β) → Option β
  | [] => none
  | (k', v) :: rest => if k' = k then some v else lookupKey k rest

/-- Number of occurrences of an element in a list (an instance-free counting
helper for theorem statements). -/
def countOcc {α : Type u} [DecidableEq α] (a : α) (l : List α) : Nat :=
  (l.filter (fun x => decide (x = a))).length

/-- Association-list insert; model of `HashMap::insert` (replaces the value
of an existing key, otherwise appends). -/
def insertKey (k : String) (v : β) : List (String × β) → List (String × β)
  | [] => [(k, v)]
  | (k', v') :: rest => if k' = k then (k, v) :: rest else (k', v') :: insertKey k v rest

/-- Replacement of every non-overlapping occurrence of `pat` (non-empty) in a
character list, scanning left to right; the fuel argument is an upper bound
on the number of characters still to be scanned. -/
def replaceAux (pat rep : List Char) : Nat → List Char → List Char
  | _, [] => []
  | 0, s => s
  | fuel + 1, c :: rest =>
    if pat.isPrefixOf (c :: rest) then rep ++ replaceAux pat rep fuel ((c :: rest).drop pat.length)
    else c :: replaceAux pat rep fuel rest

/-- Model of Rust `str::replace` for a non-empty pattern (the source only
ever substitutes the literal placeholders `{environment}`, `{service}`,
`{module}`, which are non-empty; for an empty pattern this model returns the
string unchanged). -/
def strReplace (s pat rep : String) : String :=
  if pat.data = [] then s
  else String.mk (replaceAux pat.data rep.data s.data.length s.data)

/-- Minimal model of Rust's `{:?}` escaping for a string: quotes, backslashes
and common control characters are escaped (error-message payloads only; no
claim inspects these). -/
def debugFmtString (s : String) : String :=
  let esc := fun (c : Char) =>
    if c = '"' then "\\\"" else if c = '\\' then "\\\\"
    else if c = '\n' then "\\n" else if c = '\t' then "\\t"
    else if c = '\r' then "\\r" else String.mk [c]
  "\"" ++ String.join (s.data.map esc) ++ "\""

/-- Model of Rust's `{:?}` formatting of a list of strings. -/
def debugFmtList (l : List String) : String :=
  "[" ++ String.intercalate ", " (l.map debugFmtString) ++ "]"

/-- The error taxonomy of `src/common/error.rs` (`EnvieError`); the
conversion-only variants for io / serde / regex errors are omitted because no
modelled code path constructs them. -/
inductive EnvieError where
  | TerraformError (msg : String)
  | ConfigError (msg : String)
  | FileSystemError (msg : String)
  | ProcessError (msg : String)
  | JsonError (msg : String)
  | ValidationError (msg : String)
  | DependencyError (msg : String)
  | EnvironmentError (msg : String)
  deriving Repr, DecidableEq

/-! Embedding of `src/common/environment.rs`. -/

/-- `ProjectInfo` from `src/common/service_config.rs`. -/
structure ProjectInfo where
  name : String
  description : String
  deriving Repr, DecidableEq

/-- `BackendConfig`: backend type plus a key/value configuration map. -/
structure BackendConfig where
  backend_type : String
  config : List (String × String)
  deriving Repr, DecidableEq

/-- `EphemeralConfig`. -/
structure EphemeralConfig where
  naming_pattern : String
  backend : BackendConfig
  deriving Repr, DecidableEq

/-- `StableEnvironmentConfig`. -/
structure StableEnvironmentConfig where
  workspace : String
  backend : BackendConfig
  description : String
  deriving Repr, DecidableEq

/-- `EnvironmentConfig`: ephemeral backend template plus the named
stable-environment table. -/
structure EnvironmentConfig where
  project : Option ProjectInfo
  ephemeral : EphemeralConfig
  stable : List (String × StableEnvironmentConfig)
  deriving Repr, DecidableEq

/-- `EnvironmentType`. -/
inductive EnvironmentType where
  | Ephemeral
  | Stable (name : String)
  deriving Repr, DecidableEq

/-- `ResolvedEnvironment`. -/
structure ResolvedEnvironment where
  workspace : String
  environment_type : EnvironmentType
  backend : BackendConfig
  deriving Repr, DecidableEq

/-- `EnvironmentResolver`. -/
structure EnvironmentResolver where
  current_workspace : String
  project_name : String
  available_workspaces : List String
  environment_config : EnvironmentConfig
  deriving Repr, DecidableEq

/-- `resolve_stable_environment`: look the name up in the stable table; on a
miss, fail listing the known names (the listing order of the Rust `HashMap`
keys is unspecified; the model uses the table's list order). -/
def EnvironmentResolver.resolve_stable_environment (r : EnvironmentResolver)
    (env_name : String) : Except EnvieError ResolvedEnvironment :=
  match lookupKey env_name r.environment_config.stable with
  | some stable_env =>
    .ok { workspace := stable_env.workspace
          environment_type := .Stable env_name
          backend := stable_env.backend }
  | none =>
    .error (.ValidationError ("Stable environment '" ++ env_name ++ "' not found. Available: " ++
      debugFmtList (r.environment_config.stable.map Prod.fst)))

/-- `resolve_current_ephemeral`: the bound current workspace with the
ephemeral backend template. -/
def EnvironmentResolver.resolve_current_ephemeral (r : EnvironmentResolver) :
    Except EnvieError ResolvedEnvironment :=
  .ok { workspace := r.current_workspace
        environment_type := .Ephemeral
        backend := r.environment_config.ephemeral.backend }

/-- `resolve_specific_ephemeral`: computed workspace `<project>-<id>`, which
must be among the available workspaces. -/
def EnvironmentResolver.resolve_specific_ephemeral (r : EnvironmentResolver)
    (id : String) : Except EnvieError ResolvedEnvironment :=
  let workspace := r.project_name ++ "-" ++ id
  if r.available_workspaces.contains workspace then
    .ok { workspace := workspace
          environment_type := .Ephemeral
          backend := r.environment_config.ephemeral.backend }
  else
    .error (.ValidationError ("Ephemeral workspace '" ++ workspace ++
      "' does not exist. Available: " ++ debugFmtList r.available_workspaces))

/-- `resolve_direct_workspace`: a literal workspace name, classified
`Ephemeral` when prefixed by `<project>-`, otherwise `Stable(name)` with the
stable table's backend, falling back to the ephemeral backend template when
the name is absent from the table. -/
def EnvironmentResolver.resolve_direct_workspace (r : EnvironmentResolver)
    (workspace : String) : Except EnvieError ResolvedEnvironment :=
  let environment_type :=
    if strStartsWith workspace (r.project_name ++ "-") then EnvironmentType.Ephemeral
    else EnvironmentType.Stable workspace
  let backend :=
    match environment_type with
    | .Ephemeral => r.environment_config.ephemeral.backend
    | .Stable env_name =>
      match lookupKey env_name r.environment_config.stable with
      | some env => env.backend
      | none => r.environment_config.ephemeral.backend
  .ok { workspace := workspace, environment_type := environment_type, backend := backend }

/-- `resolve_environment`: dispatch over the string grammar of environment
tokens, in source order (`stable.` prefix, literal `ephemeral`, `ephemeral.`
prefix, anything else). -/
def EnvironmentResolver.resolve_environment (r : EnvironmentResolver)
    (env_ref : String) : Except EnvieError ResolvedEnvironment :=
  if strStartsWith env_ref "stable." then
    r.resolve_stable_environment (strStripPrefix env_ref "stable.")
  else if env_ref = "ephemeral" then
    r.resolve_current_ephemeral
  else if strStartsWith env_ref "ephemeral." then
    r.resolve_specific_ephemeral (strStripPrefix env_ref "ephemeral.")
  else
    r.resolve_direct_workspace env_ref

/-- `generate_state_key`: fixed template for ephemeral environments; for
stable environments the backend's `key_pattern` entry (default
`stable/{environment}/{service}/{module}/terraform.tfstate`) with the three
placeholders substituted in sequence.  (The Rust method takes the resolver as
`self` but does not use it.) -/
def generate_state_key (resolved_env : ResolvedEnvironment)
    (service module : String) : String :=
  match resolved_env.environment_type with
  | .Ephemeral =>
    "ephemeral/" ++ resolved_env.workspace ++ "/" ++ service ++ "/" ++ module ++
      "/terraform.tfstate"
  | .Stable env_name =>
    let default_pattern := "stable/{environment}/{service}/{module}/terraform.tfstate"
    let key_pattern :=
      (lookupKey "key_pattern" resolved_env.backend.config).getD default_pattern
    strReplace (strReplace (strReplace key_pattern "{environment}" env_name)
      "{service}" service) "{module}" module

/-- Sample ephemeral resolved environment (the spec's `myapp-123` example),
used as a concrete instance in witnesses. -/
def exampleEphemeralEnv : ResolvedEnvironment :=
  { workspace := "myapp-123", environment_type := .Ephemeral,
    backend := { backend_type := "s3", config := [] } }

/-- Sample stable resolved environment without a `key_pattern` entry. -/
def exampleStableEnv : ResolvedEnvironment :=
  { workspace := "staging", environment_type := .Stable "staging",
    backend := { backend_type := "s3", config := [("bucket", "tf-state")] } }

/-- Sample resolver with project `myapp` and known workspaces
`myapp-123`, `myapp-456` (the spec's example configuration). -/
def exampleResolver : EnvironmentResolver :=
  { current_workspace := "myapp-123", project_name := "myapp",
    available_workspaces := ["myapp-123", "myapp-456"],
    environment_config :=
      { project := none,
        ephemeral := { naming_pattern := "{repo}-{merge-request}",
                       backend := { backend_type := "s3", config := [("bucket", "tf-eph")] } },
        stable := [("sandbox",
          { workspace := "sandbox",
            backend := { backend_type := "s3", config := [("bucket", "tf-stable")] },
            description := "Sandbox environment" })] } }

/-! Embedding of `src/common/service_config.rs`: the typed descriptor forms
consumed by the registry (their YAML parsing is an external concern, modelled
by the `FileSystem` oracles below). -/

/-- `DependencyReference` (module-level dependency pointer). -/
structure DependencyReference where
  path : String
  environment : String
  deriving Repr, DecidableEq

/-- `ModuleConfig`. -/
structure ModuleConfig where
  name : String
  description : String
  path : String
  depends : List DependencyReference
  deriving Repr, DecidableEq

/-- `ServiceConfig`. -/
structure ServiceConfig where
  name : String
  description : String
  modules : List ModuleConfig
  depends : List String
  deriving Repr, DecidableEq

/-- `ServiceDiscovery` (one service-path entry of a workspace manifest). -/
structure ServiceDiscovery where
  path : String
  name : Option String
  deriving Repr, DecidableEq

/-! Embedding of `src/commands/output.rs` (the Output Aggregator).

`serde_json::Value` is modelled by `Value` (a scalar constructor stands for
any non-object JSON value; the aggregator never inspects payloads beyond the
object/non-object distinction made by `merge_outputs`).  `serde_json::Map` is
modelled as an association list; equality of maps is stated through
`lookupKey` where the representation order is not determined by the code.
The calls to `get_terraform_output` (external `terraform output` processes)
and the `Path::exists` checks are oracles in an `OutputContext`; the Rust
code iterates the deduplication `HashSet` in unspecified order, which the
embedding captures by an explicit `hashSetOrder` function constrained in the
theorems to produce a permutation of the set's elements. -/

mutual
/-- Model of `serde_json::Value`. -/
inductive Value where
  | scalar (s : String)
  | object (entries : ValueEntries)
  deriving DecidableEq
/-- Entry list of a JSON object (a specialised list so that decidable
equality is derivable). -/
inductive ValueEntries where
  | nil
  | cons (key : String) (v : Value) (rest : ValueEntries)
  deriving DecidableEq
end

/-- Conversion of object entries to an association list. -/
def ValueEntries.toList : ValueEntries → List (String × Value)
  | .nil => []
  | .cons k v r => (k, v) :: r.toList

/-- Conversion of an association list to object entries. -/
def ValueEntries.ofList : List (String × Value) → ValueEntries
  | [] => .nil
  | (k, v) :: r => .cons k v (ValueEntries.ofList r)

/-- A JSON object built from an association list (`serde_json::Value::Object`). -/
def Value.objectOf (es : List (String × Value)) : Value :=
  .object (ValueEntries.ofList es)

/-- `merge_outputs`: insert every entry of `new` (when it is an object) into
the combined map, overwriting existing keys; a non-object value is ignored. -/
def merge_outputs (combined : List (String × Value)) (new : Value) :
    List (String × Value) :=
  match new with
  | .object new_map => new_map.toList.foldl (fun acc kv => insertKey kv.1 kv.2 acc) combined
  | _ => combined

/-- The base service of a component name: the part before the first `/`
(`comp_name.split('/').next().unwrap()`). -/
def baseService (comp_name : String) : String :=
  (strSplitOn comp_name '/').headD comp_name

/-- Parsing of a `component:environment` token: exactly two `:`-separated
parts, reduced to the `(base-service, environment)` pair; any other shape is
skipped by the aggregator. -/
def parseToken (comp : String) : Option (String × String) :=
  match strSplitOn comp ':' with
  | [name, env] => some (baseService name, env)
  | _ => none

/-- The contents of the `unique_service_envs` deduplication `HashSet`, listed
in first-occurrence order (the set itself is unordered; every use goes
through a permutation parameter). -/
def unique_service_envs (tokens : List String) : List (String × String) :=
  tokens.foldl (fun acc comp =>
    match parseToken comp with
    | some pair => if acc.contains pair then acc else acc ++ [pair]
    | none => acc) []

/-- The two deployment directory families queried by the aggregator
(`services/<name>/stable_deployments` and `services/<name>/temp_deployments`). -/
inductive DeployKind where
  | stableDeployments
  | tempDeployments
  deriving Repr, DecidableEq

/-- A performed Provisioner output query: directory kind, directory name and
environment passed to `get_terraform_output`. -/
abbrev Query := DeployKind × String × String

/-- Oracles for the aggregator's interaction with the filesystem and the
Provisioner: directory existence, and the outputs map produced by
`get_terraform_output` for a directory and environment (an error models any
failure inside that function). -/
structure OutputContext where
  dirExists : DeployKind → String → Bool
  terraformOutput : DeployKind → String → String → Except EnvieError (List (String × Value))

/-- The non-dev loop of `get_combined_output`: query each pair's
`stable_deployments` directory when it exists, merging results; an error
aborts.  Returns the performed queries and the outcome. -/
def runStableQueries (ctx : OutputContext) :
    List (String × String) → List (String × Value) →
    List Query × Except EnvieError (List (String × Value))
  | [], combined => ([], .ok combined)
  | (service, env) :: rest, combined =>
    if ctx.dirExists .stableDeployments service then
      match ctx.terraformOutput .stableDeployments service env with
      | .error e => ([(.stableDeployments, service, env)], .error e)
      | .ok out =>
        let res := runStableQueries ctx rest (merge_outputs combined (.objectOf out))
        ((.stableDeployments, service, env) :: res.1, res.2)
    else runStableQueries ctx rest combined

/-- The dev loop of `get_combined_output`: for each well-formed dev token,
query its `temp_deployments` directory when it exists, merging results. -/
def runDevQueries (ctx : OutputContext) :
    List String → List (String × Value) →
    List Query × Except EnvieError (List (String × Value))
  | [], combined => ([], .ok combined)
  | comp :: rest, combined =>
    match strSplitOn comp ':' with
    | [comp_name, comp_env] =>
      if ctx.dirExists .tempDeployments comp_name then
        match ctx.terraformOutput .tempDeployments comp_name comp_env with
        | .error e => ([(.tempDeployments, comp_name, comp_env)], .error e)
        | .ok out =>
          let res := runDevQueries ctx rest (merge_outputs combined (.objectOf out))
          ((.tempDeployments, comp_name, comp_env) :: res.1, res.2)
      else runDevQueries ctx rest combined
    | _ => runDevQueries ctx rest combined

/-- `get_combined_output`: partition the tokens into the dev group
(`ends_with ":dev"`) and the rest; deduplicate the non-dev group by
`(base-service, environment)`; query the deduplicated pairs in the set's
iteration order (`hashSetOrder`), then the dev tokens in input order; later
merges overwrite earlier ones.  Returns the performed queries and the
combined object. -/
def get_combined_output (ctx : OutputContext)
    (hashSetOrder : List (String × String) → List (String × String))
    (dependencies : List String) : List Query × Except EnvieError Value :=
  let dev_components := dependencies.filter (fun d => strEndsWith d ":dev")
  let non_dev_components := dependencies.filter (fun d => !(strEndsWith d ":dev"))
  let unique := unique_service_envs non_dev_components
  let res1 := runStableQueries ctx (hashSetOrder unique) []
  match res1.2 with
  | .error e => (res1.1, .error e)
  | .ok combined1 =>
    let res2 := runDevQueries ctx dev_components combined1
    (res1.1 ++ res2.1, res2.2.map Value.objectOf)

/-- One step of the non-dev merging fold, with the oracle's successful result
substituted (`outEntries`); used to state what `runStableQueries` computes
when no query fails. -/
def outEntries (ctx : OutputContext) (p : String × String) : List (String × Value) :=
  match ctx.terraformOutput .stableDeployments p.1 p.2 with
  | .ok out => out
  | .error _ => []

/-- Merging step over a deduplicated pair. -/
def stableStep (ctx : OutputContext) (c : List (String × Value)) (p : String × String) :
    List (String × Value) :=
  if ctx.dirExists .stableDeployments p.1 then merge_outputs c (.objectOf (outEntries ctx p))
  else c

/-- Successful result of a dev query. -/
def devEntries (ctx : OutputContext) (n e : String) : List (String × Value) :=
  match ctx.terraformOutput .tempDeployments n e with
  | .ok out => out
  | .error _ => []

/-- Merging step over a dev token. -/
def devStep (ctx : OutputContext) (c : List (String × Value)) (comp : String) :
    List (String × Value) :=
  match strSplitOn comp ':' with
  | [n, e] =>
    if ctx.dirExists .tempDeployments n then merge_outputs c (.objectOf (devEntries ctx n e))
    else c
  | _ => c

/-- The value a key ends up with after the entries of one output map are
merged in order: the value of the key's last occurrence. -/
def lastValue (k : String) : List (String × Value) → Option Value
  | [] => none
  | kv :: rest => (lastValue k rest).or (if kv.1 = k then some kv.2 else none)

/-- The value a key ends up with after the whole non-dev group is processed
in the given order (later list elements override earlier ones). -/
def stableValue (ctx : OutputContext) (k : String) : List (String × String) → Option Value
  | [] => none
  | p :: rest =>
    (stableValue ctx k rest).or
      (if ctx.dirExists .stableDeployments p.1 then lastValue k (outEntries ctx p) else none)

/-- The value a key ends up with after the dev group is processed. -/
def devValue (ctx : OutputContext) (k : String) : List String → Option Value
  | [] => none
  | comp :: rest =>
    (devValue ctx k rest).or
      (match strSplitOn comp ':' with
       | [n, e] =>
         if ctx.dirExists .tempDeployments n then lastValue k (devEntries ctx n e) else none
       | _ => none)

/-- Whether a deduplicated pair contributes the key `k`: its directory exists
and its output map mentions `k`. -/
def contributesKey (ctx : OutputContext) (k : String) (p : String × String) : Bool :=
  ctx.dirExists .stableDeployments p.1 && (lastValue k (outEntries ctx p)).isSome

/-- The first error encountered by the dev loop (independent of the
accumulated map). -/
def devFirstError (ctx : OutputContext) : List String → Option EnvieError
  | [] => none
  | comp :: rest =>
    match strSplitOn comp ':' with
    | [n, e] =>
      if ctx.dirExists .tempDeployments n then
        match ctx.terraformOutput .tempDeployments n e with
        | .error er => some er
        | .ok _ => devFirstError ctx rest
      else devFirstError ctx rest
    | _ => devFirstError ctx rest

/-- Looking a key up in the combined result of the aggregator (maps are
compared extensionally through their lookups, since the association-list
representation leaves the entry order to the model while the Rust map type
determines it by sorting). -/
def resultLookup (r : Except EnvieError Value) (k : String) :
    Except EnvieError (Option Value) :=
  r.map (fun v =>
    match v with
    | .object es => lookupKey k es.toList
    | _ => none)

/-- Concrete aggregator context for the C5 study: two non-ephemeral services
`a` and `b` whose stable outputs collide on the key `x`, and a dev component
`c` also writing `x`. -/
def exampleOutputCtx : OutputContext :=
  { dirExists := fun k n =>
      match k with
      | .stableDeployments => true
      | .tempDeployments => n == "c"
    terraformOutput := fun k n _e =>
      match k, n with
      | .stableDeployments, "a" => .ok [("x", .scalar "1")]
      | .stableDeployments, "b" => .ok [("x", .scalar "2")]
      | .tempDeployments, "c" => .ok [("x", .scalar "9")]
      | _, _ => .ok [] }

/-- Token list whose two non-ephemeral tokens collide on an output key. -/
def exampleCollidingDeps : List String := ["a:prod", "b:prod"]

/-- Concrete aggregator context for the C6 witness. -/
def exampleC6Ctx : OutputContext :=
  { dirExists := fun k n =>
      match k with
      | .stableDeployments => n == "db"
      | .tempDeployments => false
    terraformOutput := fun _k n e => .ok [(n ++ "_out", Value.scalar e)] }

/-- Token list in which two modules of service `db` reference the same
`(service, environment)` pair. -/
def exampleC6Deps : List String := ["db/mod1:prod", "db/mod2:prod"]

/-! Embedding of `src/common/service_discovery.rs` (Service Registry and
Dependency Graph Resolver). -/

/-- `WorkspaceConfig` (the explicit workspace manifest). -/
structure WorkspaceConfig where
  version : String
  project : Option ProjectInfo
  services : List ServiceDiscovery
  defaults : List (String × Value)
  deriving DecidableEq

/-- `DiscoveredModule`. -/
structure DiscoveredModule where
  path : FsPath
  config : ModuleConfig
  deriving Repr, DecidableEq

/-- `DiscoveredService`. -/
structure DiscoveredService where
  path : FsPath
  config : ServiceConfig
  modules : List DiscoveredModule
  deriving Repr, DecidableEq

/-- `ServiceRegistry`: name-indexed services and `service/module`-indexed
modules. -/
structure ServiceRegistry where
  services : List (String × DiscoveredService)
  modules : List (String × DiscoveredModule)
  deriving Repr, DecidableEq

/-- Filesystem and descriptor-loading oracles used by discovery: existence
checks, the three `from_file` parsers, and the bounded-depth `WalkDir` scan
(returning the parent directories of the `.envie` files it finds). -/
structure FileSystem where
  pathExists : FsPath → Bool
  loadWorkspaceConfig : FsPath → Except EnvieError WorkspaceConfig
  loadServiceConfig : FsPath → Except EnvieError ServiceConfig
  loadModuleConfig : FsPath → Except EnvieError ModuleConfig
  walkEnvieDirs : FsPath → List FsPath

/-- `find_workspace_config`: `workspace.envie` first, `.envie.yaml` as
fallback, `none` when neither exists. -/
def find_workspace_config (fs : FileSystem) (root_path : FsPath) :
    Except EnvieError (Option WorkspaceConfig) :=
  if fs.pathExists (root_path ++ ["workspace.envie"]) then
    match fs.loadWorkspaceConfig (root_path ++ ["workspace.envie"]) with
    | .ok c => .ok (some c)
    | .error e => .error e
  else if fs.pathExists (root_path ++ [".envie.yaml"]) then
    match fs.loadWorkspaceConfig (root_path ++ [".envie.yaml"]) with
    | .ok c => .ok (some c)
    | .error e => .error e
  else .ok none

/-- The module-discovery loop of `discover_service`: resolve each module's
path (default `modules/<name>`), with a module-local `.envie` override taking
precedence; loader errors propagate. -/
def discoverModules (fs : FileSystem) (service_path : FsPath) :
    List ModuleConfig → Except EnvieError (List DiscoveredModule)
  | [] => .ok []
  | mc :: rest =>
    let module_path :=
      if mc.path = "" then service_path ++ ["modules", mc.name]
      else service_path ++ pathComponents mc.path
    let loaded : Except EnvieError ModuleConfig :=
      if fs.pathExists (module_path ++ [".envie"]) then
        fs.loadModuleConfig (module_path ++ [".envie"])
      else .ok mc
    match loaded with
    | .error e => .error e
    | .ok cfg =>
      match discoverModules fs service_path rest with
      | .error e => .error e
      | .ok ms => .ok ({ path := module_path, config := cfg } :: ms)

/-- `discover_service`: requires a `.envie` descriptor in the directory, then
loads it and discovers its modules. -/
def discover_service (fs : FileSystem) (service_path : FsPath) :
    Except EnvieError DiscoveredService :=
  if fs.pathExists (service_path ++ [".envie"]) then
    match fs.loadServiceConfig (service_path ++ [".envie"]) with
    | .error e => .error e
    | .ok config =>
      match discoverModules fs service_path config.modules with
      | .error e => .error e
      | .ok modules => .ok { path := service_path, config := config, modules := modules }
  else
    .error (.ConfigError ("No .envie file found in " ++ displayPath service_path))

/-- The registration loop of `discover_from_path`: a path whose
`discover_service` fails is skipped (`if let Ok(service)` in the source);
successful services are registered under their config name, and their
modules under `service/module`. -/
def discoverLoop (fs : FileSystem) :
    List FsPath →
    List (String × DiscoveredService) × List (String × DiscoveredModule) →
    List (String × DiscoveredService) × List (String × DiscoveredModule)
  | [], acc => acc
  | sp :: rest, acc =>
    match discover_service fs sp with
    | .ok service =>
      let services' := insertKey service.config.name service acc.1
      let modules' := service.modules.foldl
        (fun m dm => insertKey (service.config.name ++ "/" ++ dm.config.name) dm m) acc.2
      discoverLoop fs rest (services', modules')
    | .error _ => discoverLoop fs rest acc

/-- `ServiceRegistry::discover_from_path`: explicit service paths from the
workspace manifest when one exists (joined onto the root), otherwise the
implicit `WalkDir` scan; then the registration loop. -/
def discover_from_path (fs : FileSystem) (root_path : FsPath) :
    Except EnvieError ServiceRegistry :=
  match find_workspace_config fs root_path with
  | .error e => .error e
  | .ok workspace_config =>
    let service_paths :=
      match workspace_config with
      | some config => config.services.map (fun s => root_path ++ pathComponents s.path)
      | none => fs.walkEnvieDirs root_path
    let acc := discoverLoop fs service_paths ([], [])
    .ok { services := acc.1, modules := acc.2 }

/-- `resolve_dependency_name`: a `../`-prefixed token is resolved against the
parent of the current service directory and its final path component must
name a registered service; bare-name and `service/module` tokens are used as
given. -/
def ServiceRegistry.resolve_dependency_name (reg : ServiceRegistry) (dep_path : String)
    (current_path : FsPath) : Except EnvieError String :=
  if strStartsWith dep_path "../" then
    match current_path with
    | [] => .error (.ValidationError "Invalid relative path")
    | _ :: _ =>
      let resolved_path := current_path.dropLast ++ pathComponents dep_path
      match fileName resolved_path with
      | none => .error (.ValidationError "Invalid service name in path")
      | some service_name =>
        if (lookupKey service_name reg.services).isSome then .ok service_name
        else .error (.ValidationError ("Dependency '" ++ dep_path ++
          "' not found - service '" ++ service_name ++ "' does not exist"))
  else if dep_path.data.contains '/' then
    .ok dep_path
  else
    .ok dep_path

/-- The mutable state of `resolve_service_dependencies_recursive`: the
visited set, the recursion stack and the deployment order (the two
`HashSet`s are modelled as duplicate-free lists). -/
structure DfsState where
  visited : List String
  recursion_stack : List String
  deployment_order : List String
  deriving Repr, DecidableEq

/-- `HashSet::insert` on the modelled sets. -/
def setInsert (x : String) (l : List String) : List String :=
  if l.contains x then l else x :: l

/-- The dependency loop of `resolve_service_dependencies_recursive`: resolve
each token (errors propagate), look the resolved name up (unregistered names
are skipped), and recurse — `step` is the recursive call — threading the
state. -/
def depsLoop (reg : ServiceRegistry)
    (step : DiscoveredService → DfsState → Except EnvieError DfsState)
    (current_path : FsPath) : List String → DfsState → Except EnvieError DfsState
  | [], st => .ok st
  | dep :: rest, st =>
    match reg.resolve_dependency_name dep current_path with
    | .error e => .error e
    | .ok dep_name =>
      match lookupKey dep_name reg.services with
      | some dep_service =>
        match step dep_service st with
        | .error e => .error e
        | .ok st' => depsLoop reg step current_path rest st'
      | none => depsLoop reg step current_path rest st

/-- `resolve_service_dependencies_recursive`: the three-state DFS.  A node on
the recursion stack closes a cycle (hard error); a visited node is skipped;
otherwise the node is marked, its dependencies are resolved, and it is moved
from the stack to the end of the deployment order.  The Rust recursion has no
fuel; its depth is bounded by the number of distinct registered names because
every nested call first inserts a fresh name into `visited`, and the fuel
passed by `resolve_dependencies` below is proved never to run out
(`resolveRec_ok_or_cycle`), so the extra `fuel = 0` error is unreachable
there. -/
def resolveRec (reg : ServiceRegistry) :
    Nat → DiscoveredService → DfsState → Except EnvieError DfsState
  | 0, _, _ => .error (.DependencyError "dependency recursion limit exceeded")
  | fuel + 1, service, st =>
    if st.recursion_stack.contains service.config.name then
      .error (.DependencyError ("Cyclic dependency detected involving service " ++
        service.config.name))
    else if st.visited.contains service.config.name then
      .ok st
    else
      let st1 : DfsState :=
        { visited := setInsert service.config.name st.visited
          recursion_stack := setInsert service.config.name st.recursion_stack
          deployment_order := st.deployment_order }
      match depsLoop reg (resolveRec reg fuel) service.path service.config.depends st1 with
      | .error e => .error e
      | .ok st2 =>
        .ok { visited := st2.visited
              recursion_stack := st2.recursion_stack.erase service.config.name
              deployment_order := st2.deployment_order ++ [service.config.name] }

/-- `resolve_dependencies`: look the target up (unknown targets fail with a
`ValidationError`) and run the DFS from empty state. -/
def ServiceRegistry.resolve_dependencies (reg : ServiceRegistry) (service_name : String) :
    Except EnvieError (List String) :=
  match lookupKey service_name reg.services with
  | some service =>
    match resolveRec reg (reg.services.length + 1) service ⟨[], [], []⟩ with
    | .error e => .error e
    | .ok st => .ok st.deployment_order
  | none => .error (.ValidationError ("Service '" ++ service_name ++ "' not found"))

/-! Specification-side notions for the graph claims. -/

/-- Well-formedness of a registry as built by discovery: keys are unique and
each service is registered under its own config name. -/
def ServiceRegistry.WF (reg : ServiceRegistry) : Prop :=
  (reg.services.map Prod.fst).Nodup ∧ ∀ p ∈ reg.services, p.1 = p.2.config.name

/-- The service-level dependency graph restricted to registered services:
`a` depends on `b` when some dependency token of the service registered as
`a` resolves to the name `b` of a registered service. -/
def dependsOn (reg : ServiceRegistry) (a b : String) : Prop :=
  ∃ sa, lookupKey a reg.services = some sa ∧
    ∃ dep ∈ sa.config.depends,
      reg.resolve_dependency_name dep sa.path = .ok b ∧
      (lookupKey b reg.services).isSome = true

/-- Every dependency token of every registered service resolves (no
unresolvable relative-path token). -/
def TokensOk (reg : ServiceRegistry) : Prop :=
  ∀ p ∈ reg.services, ∀ dep ∈ p.2.config.depends,
    (reg.resolve_dependency_name dep p.2.path).isOk = true

/-- Acyclicity of the dependency graph restricted to registered services. -/
def Acyclic (reg : ServiceRegistry) : Prop :=
  ∀ a, ¬ Relation.TransGen (dependsOn reg) a a

/-- A service value that is registered under its own name. -/
def Keyed (reg : ServiceRegistry) (s : DiscoveredService) : Prop :=
  lookupKey s.config.name reg.services = some s

/-- The config names of all registered services. -/
def registryNames (reg : ServiceRegistry) : List String :=
  reg.services.map (fun p => p.2.config.name)

/-- Number of distinct registered names not yet visited (the termination
measure of the DFS). -/
def unvisitedCount (reg : ServiceRegistry) (visited : List String) : Nat :=
  ((registryNames reg).dedup.filter (fun n => !(visited.contains n))).length

/-- Executable edge test for the dependency graph. -/
def dependsOnB (reg : ServiceRegistry) (a b : String) : Bool :=
  match lookupKey a reg.services with
  | some sa =>
    sa.config.depends.any (fun dep =>
      match reg.resolve_dependency_name dep sa.path with
      | .ok n => n == b && (lookupKey b reg.services).isSome
      | .error _ => false)
  | none => false

/-- Executable acyclicity certificate: a rank function decreasing along every
edge between registered names. -/
def acyclicByRank (reg : ServiceRegistry) (rank : String → Nat) : Bool :=
  (reg.services.map Prod.fst).all (fun a =>
    (reg.services.map Prod.fst).all (fun b =>
      !(dependsOnB reg a b) || decide (rank b < rank a)))

/-- Whether a result is a `DependencyError` (used to state error-class
counterexamples without binders). -/
def isDependencyErrorB {α : Type u} : Except EnvieError α → Bool
  | .error (.DependencyError _) => true
  | _ => false

/-- The invariant of DFS states: the order and the stack have no duplicates,
`visited` is exactly stack plus order, stack and order are disjoint, and the
order is dependency-closed, free of forward edges and free of self-edges
(together: topologically sorted). -/
structure GoodState (reg : ServiceRegistry) (st : DfsState) : Prop where
  order_nodup : st.deployment_order.Nodup
  stack_nodup : st.recursion_stack.Nodup
  visited_iff : ∀ x, x ∈ st.visited ↔ (x ∈ st.recursion_stack ∨ x ∈ st.deployment_order)
  stack_order_disjoint : ∀ x ∈ st.recursion_stack, x ∉ st.deployment_order
  order_closed : ∀ x ∈ st.deployment_order, ∀ y, dependsOn reg x y →
    y ∈ st.deployment_order
  order_sorted : st.deployment_order.Pairwise (fun u v => ¬ dependsOn reg u v)
  order_irrefl : ∀ x ∈ st.deployment_order, ¬ dependsOn reg x x

/-- Post-conditions of a successful `resolveRec` call. -/
structure RecPost (reg : ServiceRegistry) (s : DiscoveredService)
    (st st' : DfsState) : Prop where
  stack_eq : st'.recursion_stack = st.recursion_stack
  order_prefix : st.deployment_order <+: st'.deployment_order
  visited_mono : ∀ x ∈ st.visited, x ∈ st'.visited
  name_in_order : s.config.name ∈ st'.deployment_order
  good : GoodState reg st'
  visited_new_reachable : ∀ x ∈ st'.visited,
    x ∈ st.visited ∨ Relation.ReflTransGen (dependsOn reg) s.config.name x
  reachable_visited : ∀ x, Relation.ReflTransGen (dependsOn reg) s.config.name x →
    x ∈ st'.visited

/-- Post-conditions of a successful dependency-loop run over the token list
`deps` of the service `s`. -/
structure LoopPost (reg : ServiceRegistry) (s : DiscoveredService) (deps : List String)
    (st st' : DfsState) : Prop where
  stack_eq : st'.recursion_stack = st.recursion_stack
  order_prefix : st.deployment_order <+: st'.deployment_order
  visited_mono : ∀ x ∈ st.visited, x ∈ st'.visited
  good : GoodState reg st'
  visited_new_via : ∀ x ∈ st'.visited, x ∈ st.visited ∨
    ∃ dep ∈ deps, ∃ y, reg.resolve_dependency_name dep s.path = .ok y ∧
      (lookupKey y reg.services).isSome = true ∧
      Relation.ReflTransGen (dependsOn reg) y x
  dep_targets : ∀ dep ∈ deps, ∀ y, reg.resolve_dependency_name dep s.path = .ok y →
    (lookupKey y reg.services).isSome = true →
    y ∈ st'.deployment_order ∧
      ∀ x, Relation.ReflTransGen (dependsOn reg) y x → x ∈ st'.visited

/-- A service all of whose dependencies already lie in the registry under its
own name: the diamond example registry `a → {b, c}`, `b → d`, `c → d`. -/
def mkService (name : String) (path : FsPath) (depends : List String) :
    DiscoveredService :=
  { path := path
    config := { name := name, description := "", modules := [], depends := depends }
    modules := [] }

/-- The diamond registry from the spec's example. -/
def diamondReg : ServiceRegistry :=
  { services :=
      [("a", mkService "a" ["services", "a"] ["b", "c"]),
       ("b", mkService "b" ["services", "b"] ["d"]),
       ("c", mkService "c" ["services", "c"] ["d"]),
       ("d", mkService "d" ["services", "d"] [])]
    modules := [] }

/-- A two-cycle registry: `a` and `b` depend on each other. -/
def cycleReg : ServiceRegistry :=
  { services :=
      [("a", mkService "a" ["services", "a"] ["b"]),
       ("b", mkService "b" ["services", "b"] ["a"])]
    modules := [] }

/-- A registry whose only service carries an unresolvable relative-path
token (its graph restricted to registered services has no edges). -/
def badTokenReg : ServiceRegistry :=
  { services := [("a", mkService "a" ["services", "a"] ["../missing"])]
    modules := [] }

/-- A cyclic registry in which the cycle-opening service also carries an
unresolvable relative-path token before the cycle edge. -/
def badTokenCycleReg : ServiceRegistry :=
  { services :=
      [("a", mkService "a" ["services", "a"] ["../missing", "b"]),
       ("b", mkService "b" ["services", "b"] ["a"])]
    modules := [] }

/-- A registry with a dangling bare-name token `ghost` next to a registered
dependency. -/
def ghostTokenReg : ServiceRegistry :=
  { services :=
      [("a", mkService "a" ["services", "a"] ["ghost", "b"]),
       ("b", mkService "b" ["services", "b"] [])]
    modules := [] }

/-- A filesystem whose explicit workspace manifest declares one service path
whose descriptor exists but is malformed (its loader fails). -/
def exampleManifestFs : FileSystem :=
  { pathExists := fun p =>
      p == ["root", "workspace.envie"] || p == ["root", "svc", ".envie"]
    loadWorkspaceConfig := fun _ =>
      .ok { version := "1.0", project := none,
            services := [{ path := "svc", name := none }], defaults := [] }
    loadServiceConfig := fun _ =>
      .error (.ConfigError "Failed to parse service config: malformed descriptor")
    loadModuleConfig := fun _ => .error (.ConfigError "unused")
    walkEnvieDirs := fun _ => [] }

/-! ### General lemmas about the embedding -/

theorem isPrefixOf_cons_false {a b : Char} (h : (a == b) = false) (l1 l2 : List Char) :
    (a :: l1).isPrefixOf (b :: l2) = false := by
  simp [List.isPrefixOf, h]

theorem strStartsWith_append (p s : String) : strStartsWith (p ++ s) p = true := by
  have : (p ++ s).data = p.data ++ s.data := rfl
  simp [strStartsWith, this, List.isPrefixOf_iff_prefix]

theorem strStripPrefix_append (p s : String) : strStripPrefix (p ++ s) p = s := by
  have h : (p ++ s).data = p.data ++ s.data := rfl
  simp [strStripPrefix, h, List.drop_left]

theorem append_ne_of_length {p s t : String} (h : p.length + s.length ≠ t.length) :
    p ++ s ≠ t := by
  intro hc
  apply h
  rw [← hc, String.length_append]

/-- Dispatch of `resolve_environment` on an `ephemeral.`-prefixed token. -/
theorem resolve_environment_ephemeral_dot (r : EnvironmentResolver) (id : String) :
    r.resolve_environment ("ephemeral." ++ id) = r.resolve_specific_ephemeral id := by
  unfold EnvironmentResolver.resolve_environment
  have h1 : strStartsWith ("ephemeral." ++ id) "stable." = false := by
    have hd : ("ephemeral." ++ id).data = 'e' :: ("phemeral." ++ id).data := rfl
    have hs : ("stable." : String).data = 's' :: ("table." : String).data := rfl
    simp [strStartsWith, hd, hs, isPrefixOf_cons_false]
  have h2 : ("ephemeral." ++ id) ≠ "ephemeral" := by
    apply append_ne_of_length
    have h10 : ("ephemeral." : String).length = 10 := by decide
    have h9 : ("ephemeral" : String).length = 9 := by decide
    simp [h10, h9]
    omega
  have h3 : strStartsWith ("ephemeral." ++ id) "ephemeral." = true :=
    strStartsWith_append "ephemeral." id
  rw [h1]
  simp only [Bool.false_eq_true, if_false, if_neg h2, h3, if_true,
    strStripPrefix_append]

/-! ### Claim theorems: environment resolver -/

/-- Claim C7: `generate_state_key` is a pure deterministic function (it is a
function of exactly the listed inputs by construction): for an ephemeral
environment it returns `ephemeral/{workspace}/{service}/{module}/terraform.tfstate`;
for a stable environment it returns the backend's `key_pattern` entry —
defaulting to `stable/{environment}/{service}/{module}/terraform.tfstate` —
with the placeholders `{environment}`, `{service}`, `{module}` substituted
literally in sequence; the spec's two concrete examples evaluate as stated. -/
theorem c7_generate_state_key :
    (∀ (env : ResolvedEnvironment) (service module : String),
        env.environment_type = .Ephemeral →
        generate_state_key env service module =
          "ephemeral/" ++ env.workspace ++ "/" ++ service ++ "/" ++ module ++
            "/terraform.tfstate") ∧
    (∀ (env : ResolvedEnvironment) (service module env_name pat : String),
        env.environment_type = .Stable env_name →
        lookupKey "key_pattern" env.backend.config = some pat →
        generate_state_key env service module =
          strReplace (strReplace (strReplace pat "{environment}" env_name)
            "{service}" service) "{module}" module) ∧
    (∀ (env : ResolvedEnvironment) (service module env_name : String),
        env.environment_type = .Stable env_name →
        lookupKey "key_pattern" env.backend.config = none →
        generate_state_key env service module =
          strReplace (strReplace (strReplace
            "stable/{environment}/{service}/{module}/terraform.tfstate"
            "{environment}" env_name) "{service}" service) "{module}" module) ∧
    generate_state_key exampleEphemeralEnv "api" "lambda" =
      "ephemeral/myapp-123/api/lambda/terraform.tfstate" ∧
    generate_state_key exampleStableEnv "api" "lambda" =
      "stable/staging/api/lambda/terraform.tfstate" := by
  refine ⟨?_, ?_, ?_, by decide, by decide⟩
  · intro env service module h
    simp [generate_state_key, h]
  · intro env service module env_name pat h hpat
    simp [generate_state_key, h, hpat]
  · intro env service module env_name h hpat
    simp [generate_state_key, h, hpat]

/-- Witness for C7 at the spec's concrete ephemeral example. -/
theorem c7_generate_state_key_witness :
    exampleEphemeralEnv.environment_type = EnvironmentType.Ephemeral ∧
    generate_state_key exampleEphemeralEnv "api" "lambda" =
      "ephemeral/" ++ exampleEphemeralEnv.workspace ++ "/" ++ "api" ++ "/" ++ "lambda" ++
        "/terraform.tfstate" :=
  ⟨rfl, c7_generate_state_key.1 exampleEphemeralEnv "api" "lambda" rfl⟩

/-- Claim C8: `resolve_environment "ephemeral.<id>"` resolves to the computed
workspace `<project>-<id>`, classified `Ephemeral` with the ephemeral backend
template, exactly when that workspace is among the known workspaces;
otherwise it fails with a `ValidationError`. -/
theorem c8_specific_ephemeral (r : EnvironmentResolver) (id : String) :
    (r.available_workspaces.contains (r.project_name ++ "-" ++ id) = true →
      r.resolve_environment ("ephemeral." ++ id) =
        .ok { workspace := r.project_name ++ "-" ++ id,
              environment_type := .Ephemeral,
              backend := r.environment_config.ephemeral.backend }) ∧
    (r.available_workspaces.contains (r.project_name ++ "-" ++ id) = false →
      r.resolve_environment ("ephemeral." ++ id) =
        .error (.ValidationError ("Ephemeral workspace '" ++
          (r.project_name ++ "-" ++ id) ++ "' does not exist. Available: " ++
          debugFmtList r.available_workspaces))) := by
  rw [resolve_environment_ephemeral_dot]
  unfold EnvironmentResolver.resolve_specific_ephemeral
  constructor
  · intro h
    simp [h]
    exact List.mem_of_elem_eq_true h
  · intro h
    simp [h]
    intro hc
    have := List.elem_eq_true_of_mem hc
    rw [List.contains] at h
    rw [this] at h
    exact Bool.true_eq_false.mp h

/-- Witness for C8 at the spec's example: project `myapp`, known workspaces
`["myapp-123","myapp-456"]`; `ephemeral.456` resolves to `myapp-456` and
`ephemeral.789` fails with a `ValidationError`. -/
theorem c8_specific_ephemeral_witness :
    exampleResolver.available_workspaces.contains
      (exampleResolver.project_name ++ "-" ++ "456") = true ∧
    exampleResolver.resolve_environment ("ephemeral." ++ "456") =
      .ok { workspace := exampleResolver.project_name ++ "-" ++ "456",
            environment_type := .Ephemeral,
            backend := exampleResolver.environment_config.ephemeral.backend } ∧
    exampleResolver.available_workspaces.contains
      (exampleResolver.project_name ++ "-" ++ "789") = false ∧
    exampleResolver.resolve_environment ("ephemeral." ++ "789") =
      .error (.ValidationError ("Ephemeral workspace '" ++
        (exampleResolver.project_name ++ "-" ++ "789") ++ "' does not exist. Available: " ++
        debugFmtList exampleResolver.available_workspaces)) :=
  ⟨by decide, (c8_specific_ephemeral exampleResolver "456").1 (by decide),
   by decide, (c8_specific_ephemeral exampleResolver "789").2 (by decide)⟩

/-- Claim C9: a token that does not start with `stable.`, is not exactly
`ephemeral` and does not start with `ephemeral.` always resolves
successfully: it is classified `Ephemeral` with the ephemeral backend when
prefixed by `<project>-`, otherwise `Stable(name)` with the stable table's
backend for that name, falling back to the ephemeral backend template when
the name is absent from the stable table. -/
theorem c9_direct_workspace (r : EnvironmentResolver) (t : String)
    (h1 : strStartsWith t "stable." = false)
    (h2 : t ≠ "ephemeral")
    (h3 : strStartsWith t "ephemeral." = false) :
    r.resolve_environment t =
      .ok { workspace := t,
            environment_type :=
              if strStartsWith t (r.project_name ++ "-") then .Ephemeral
              else .Stable t,
            backend :=
              if strStartsWith t (r.project_name ++ "-") then
                r.environment_config.ephemeral.backend
              else
                match lookupKey t r.environment_config.stable with
                | some env => env.backend
                | none => r.environment_config.ephemeral.backend } := by
  unfold EnvironmentResolver.resolve_environment
  rw [h1]
  simp only [Bool.false_eq_true, if_false, if_neg h2, h3]
  unfold EnvironmentResolver.resolve_direct_workspace
  by_cases hp : strStartsWith t (r.project_name ++ "-") = true
  · simp [hp]
  · simp only [Bool.not_eq_true] at hp
    simp [hp]

/-- Witness for C9: the literal token `prod` with the example resolver
(project `myapp`): classified stable, not present in the stable table, so the
backend falls back to the ephemeral template. -/
theorem c9_direct_workspace_witness :
    strStartsWith "prod" "stable." = false ∧
    "prod" ≠ "ephemeral" ∧
    strStartsWith "prod" "ephemeral." = false ∧
    exampleResolver.resolve_environment "prod" =
      .ok { workspace := "prod",
            environment_type :=
              if strStartsWith "prod" (exampleResolver.project_name ++ "-") then .Ephemeral
              else .Stable "prod",
            backend :=
              if strStartsWith "prod" (exampleResolver.project_name ++ "-") then
                exampleResolver.environment_config.ephemeral.backend
              else
                match lookupKey "prod" exampleResolver.environment_config.stable with
                | some env => env.backend
                | none => exampleResolver.environment_config.ephemeral.backend } :=
  ⟨by decide, by decide, by decide,
   c9_direct_workspace exampleResolver "prod" (by decide) (by decide) (by decide)⟩

/-! ### Lemmas about the Output Aggregator -/

theorem toList_ofList (es : List (String × Value)) :
    (ValueEntries.ofList es).toList = es := by
  induction es with
  | nil => rfl
  | cons kv rest ih =>
    obtain ⟨k, v⟩ := kv
    simp [ValueEntries.ofList, ValueEntries.toList, ih]

theorem merge_objectOf (c : List (String × Value)) (es : List (String × Value)) :
    merge_outputs c (.objectOf es) = es.foldl (fun acc kv => insertKey kv.1 kv.2 acc) c := by
  simp [merge_outputs, Value.objectOf, toList_ofList]

theorem lookup_insertKey (k k' : String) (v : β) (m : List (String × β)) :
    lookupKey k (insertKey k' v m) = if k' = k then some v else lookupKey k m := by
  induction m with
  | nil => simp [insertKey, lookupKey]
  | cons kv rest ih =>
    obtain ⟨k0, v0⟩ := kv
    by_cases h0 : k0 = k'
    · subst h0
      by_cases h1 : k0 = k <;> simp [insertKey, lookupKey, h1]
    · by_cases h1 : k0 = k
      · subst h1
        have h2 : k' ≠ k0 := fun hc => h0 hc.symm
        simp [insertKey, lookupKey, h0, h2]
      · simp [insertKey, lookupKey, h0, h1, ih]

theorem lookup_merge_foldl (k : String) (es : List (String × Value))
    (c : List (String × Value)) :
    lookupKey k (es.foldl (fun acc kv => insertKey kv.1 kv.2 acc) c) =
      (lastValue k es).or (lookupKey k c) := by
  induction es generalizing c with
  | nil => simp [lastValue]
  | cons kv rest ih =>
    rw [List.foldl_cons, ih, lastValue, lookup_insertKey]
    cases hl : lastValue k rest with
    | some v => simp [Option.or]
    | none =>
      by_cases hk : kv.1 = k <;> simp [hk, Option.or]

theorem runStable_allOk (ctx : OutputContext) (l : List (String × String))
    (c : List (String × Value))
    (h : ∀ p ∈ l, ctx.dirExists .stableDeployments p.1 = true →
      (ctx.terraformOutput .stableDeployments p.1 p.2).isOk = true) :
    runStableQueries ctx l c =
      ((l.filter fun p => ctx.dirExists .stableDeployments p.1).map
        (fun p => (DeployKind.stableDeployments, p.1, p.2)),
       .ok (l.foldl (stableStep ctx) c)) := by
  induction l generalizing c with
  | nil => simp [runStableQueries]
  | cons p rest ih =>
    obtain ⟨service, env⟩ := p
    have hrest := fun q hq' hd' => h q (List.mem_cons_of_mem _ hq') hd'
    by_cases hd : ctx.dirExists .stableDeployments service = true
    · have hok := h (service, env) (by simp) hd
      dsimp only at hok
      cases hq : ctx.terraformOutput .stableDeployments service env with
      | error e => rw [hq] at hok; simp [Except.isOk, Except.toBool] at hok
      | ok out =>
        have hstep : stableStep ctx c (service, env) =
            merge_outputs c (.objectOf out) := by
          simp [stableStep, hd, outEntries, hq]
        simp [runStableQueries, hd, hq, hstep, ih _ hrest]
    · have hstep : stableStep ctx c (service, env) = c := by
        simp [stableStep, hd]
      simp [runStableQueries, hd, hstep, ih _ hrest]

theorem runDev_allOk (ctx : OutputContext) (l : List String)
    (c : List (String × Value))
    (h : ∀ comp ∈ l, ∀ n e, strSplitOn comp ':' = [n, e] →
      ctx.dirExists .tempDeployments n = true →
      (ctx.terraformOutput .tempDeployments n e).isOk = true) :
    runDevQueries ctx l c =
      ((l.filterMap fun comp =>
          match strSplitOn comp ':' with
          | [n, e] => if ctx.dirExists .tempDeployments n then
              some (DeployKind.tempDeployments, n, e) else none
          | _ => none),
       .ok (l.foldl (devStep ctx) c)) := by
  induction l generalizing c with
  | nil => simp [runDevQueries]
  | cons comp rest ih =>
    have hrest := fun q hq' => h q (List.mem_cons_of_mem _ hq')
    cases hs : strSplitOn comp ':' with
    | nil => simp [runDevQueries, hs, ih _ hrest, devStep]
    | cons a tl =>
      cases tl with
      | nil => simp [runDevQueries, hs, ih _ hrest, devStep]
      | cons b tl2 =>
        cases tl2 with
        | cons x tl3 => simp [runDevQueries, hs, ih _ hrest, devStep]
        | nil =>
          by_cases hd : ctx.dirExists .tempDeployments a = true
          · have hok := h comp (by simp) a b hs hd
            cases hq : ctx.terraformOutput .tempDeployments a b with
            | error e => rw [hq] at hok; simp [Except.isOk, Except.toBool] at hok
            | ok out =>
              have hstep : devStep ctx c comp = merge_outputs c (.objectOf out) := by
                simp [devStep, hs, hd, devEntries, hq]
              simp [runDevQueries, hs, hd, hq, hstep, ih _ hrest]
          · have hstep : devStep ctx c comp = c := by
              simp [devStep, hs, hd]
            simp [runDevQueries, hs, hd, hstep, ih _ hrest]

theorem runDev_kinds (ctx : OutputContext) (l : List String)
    (c : List (String × Value)) :
    ∀ q ∈ (runDevQueries ctx l c).1, q.1 = DeployKind.tempDeployments := by
  induction l generalizing c with
  | nil => simp [runDevQueries]
  | cons comp rest ih =>
    intro q hq
    rcases hs : strSplitOn comp ':' with _ | ⟨a, _ | ⟨b, _ | _⟩⟩ <;>
      simp only [runDevQueries, hs] at hq
    · exact ih _ q hq
    · exact ih _ q hq
    · by_cases hd : ctx.dirExists .tempDeployments a = true
      · rw [if_pos hd] at hq
        cases hqq : ctx.terraformOutput .tempDeployments a b <;> simp only [hqq] at hq
        · simp at hq
          rw [hq]
        · simp at hq
          rcases hq with hq | hq
          · rw [hq]
          · exact ih _ q hq
      · rw [if_neg hd] at hq
        exact ih _ q hq
    · exact ih _ q hq

theorem lookup_stableFold (ctx : OutputContext) (k : String)
    (l : List (String × String)) (c : List (String × Value)) :
    lookupKey k (l.foldl (stableStep ctx) c) =
      (stableValue ctx k l).or (lookupKey k c) := by
  induction l generalizing c with
  | nil => simp [stableValue]
  | cons p rest ih =>
    rw [List.foldl_cons, ih, stableValue, Option.or_assoc]
    congr 1
    by_cases hd : ctx.dirExists .stableDeployments p.1 = true
    · simp only [stableStep, if_pos hd, merge_objectOf, lookup_merge_foldl, hd, if_true]
    · simp only [stableStep, if_neg hd, hd]
      simp [Option.or]

theorem lookup_devFold (ctx : OutputContext) (k : String)
    (l : List String) (c : List (String × Value)) :
    lookupKey k (l.foldl (devStep ctx) c) =
      (devValue ctx k l).or (lookupKey k c) := by
  induction l generalizing c with
  | nil => simp [devValue]
  | cons comp rest ih =>
    rw [List.foldl_cons, ih, devValue, Option.or_assoc]
    congr 1
    rcases hs : strSplitOn comp ':' with _ | ⟨a, _ | ⟨b, _ | _⟩⟩ <;>
      simp only [devStep, hs]
    · simp [Option.or]
    · simp [Option.or]
    · by_cases hd : ctx.dirExists .tempDeployments a = true
      · simp only [if_pos hd, merge_objectOf, lookup_merge_foldl]
      · simp only [if_neg hd]
        simp [Option.or]
    · simp [Option.or]

theorem stableValue_char (ctx : OutputContext) (k : String) (l : List (String × String)) :
    stableValue ctx k l =
      ((l.filter (contributesKey ctx k)).getLast?).bind
        (fun p => lastValue k (outEntries ctx p)) := by
  induction l with
  | nil => simp [stableValue]
  | cons p rest ih =>
    by_cases hc : contributesKey ctx k p = true
    · have hd : ctx.dirExists .stableDeployments p.1 = true := by
        simp [contributesKey] at hc
        exact hc.1
      have hsome : (lastValue k (outEntries ctx p)).isSome = true := by
        simp [contributesKey] at hc
        exact hc.2
      rw [stableValue, ih, List.filter_cons, if_pos hc]
      cases hfr : (rest.filter (contributesKey ctx k)) with
      | nil =>
        obtain ⟨v, hv⟩ := Option.isSome_iff_exists.mp hsome
        simp [List.getLast?, hv, hd, Option.or]
      | cons q tl =>
        have hql : ((q :: tl).getLast?).isSome = true := List.getLast?_isSome.mpr (by simp)
        obtain ⟨last, hlast⟩ := Option.isSome_iff_exists.mp hql
        have hmem : last ∈ q :: tl := List.mem_of_mem_getLast? hlast
        rw [← hfr] at hmem
        have hcl : contributesKey ctx k last = true := (List.mem_filter.mp hmem).2
        have hsl : (lastValue k (outEntries ctx last)).isSome = true := by
          simp [contributesKey] at hcl
          exact hcl.2
        obtain ⟨v, hv⟩ := Option.isSome_iff_exists.mp hsl
        rw [List.getLast?_cons_cons, hlast]
        simp [Option.some_bind, hv, Option.or]
    · have hnone : (if ctx.dirExists .stableDeployments p.1 then
          lastValue k (outEntries ctx p) else none) = none := by
        by_cases hd : ctx.dirExists .stableDeployments p.1 = true
        · rw [if_pos hd]
          simp only [contributesKey, hd, Bool.true_and] at hc
          cases hv : lastValue k (outEntries ctx p) with
          | none => rfl
          | some v => rw [hv] at hc; simp at hc
        · rw [if_neg hd]
      rw [stableValue, hnone, Option.or_none, ih, List.filter_cons, if_neg hc]

/-- Deduplication invariant: the pair set built by the non-dev loop has no
duplicates. -/
theorem unique_service_envs_nodup (tokens : List String) :
    (unique_service_envs tokens).Nodup := by
  have main : ∀ (ts : List String) (acc : List (String × String)), acc.Nodup →
      (ts.foldl (fun acc comp =>
        match parseToken comp with
        | some pair => if acc.contains pair then acc else acc ++ [pair]
        | none => acc) acc).Nodup := by
    intro ts
    induction ts with
    | nil => intro acc h; exact h
    | cons comp rest ih =>
      intro acc h
      rw [List.foldl_cons]
      cases hp : parseToken comp with
      | none => exact ih acc h
      | some pair =>
        by_cases hmem : acc.contains pair = true
        · simp only [hp, hmem, if_true]
          exact ih acc h
        · simp only [hp, hmem, Bool.false_eq_true, if_false]
          apply ih
          rw [List.nodup_append]
          refine ⟨h, List.nodup_singleton pair, ?_⟩
          intro x hx hx1
          rw [List.mem_singleton] at hx1
          subst hx1
          exact hmem (List.elem_eq_true_of_mem hx)
  exact main tokens [] List.nodup_nil

/-- Membership in the deduplicated pair set: a pair is present exactly when
some token of the list parses to it. -/
theorem mem_unique_service_envs (tokens : List String) (p : String × String) :
    p ∈ unique_service_envs tokens ↔ ∃ t ∈ tokens, parseToken t = some p := by
  have main : ∀ (ts : List String) (acc : List (String × String)),
      (p ∈ ts.foldl (fun acc comp =>
        match parseToken comp with
        | some pair => if acc.contains pair then acc else acc ++ [pair]
        | none => acc) acc ↔ p ∈ acc ∨ ∃ t ∈ ts, parseToken t = some p) := by
    intro ts
    induction ts with
    | nil => intro acc; simp
    | cons comp rest ih =>
      intro acc
      rw [List.foldl_cons]
      cases hp : parseToken comp with
      | none =>
        rw [ih acc]
        constructor
        · rintro (h | h)
          · exact Or.inl h
          · exact Or.inr ⟨h.choose, List.mem_cons_of_mem _ h.choose_spec.1, h.choose_spec.2⟩
        · rintro (h | ⟨t, ht, hpt⟩)
          · exact Or.inl h
          · rcases List.mem_cons.mp ht with rfl | ht'
            · rw [hp] at hpt; exact absurd hpt (by simp)
            · exact Or.inr ⟨t, ht', hpt⟩
      | some pair =>
        by_cases hmem : acc.contains pair = true
        · simp only [hp, hmem, if_true]
          rw [ih acc]
          constructor
          · rintro (h | ⟨t, ht, hpt⟩)
            · exact Or.inl h
            · exact Or.inr ⟨t, List.mem_cons_of_mem _ ht, hpt⟩
          · rintro (h | ⟨t, ht, hpt⟩)
            · exact Or.inl h
            · rcases List.mem_cons.mp ht with rfl | ht'
              · rw [hp] at hpt
                injection hpt with hpt
                subst hpt
                exact Or.inl (List.mem_of_elem_eq_true hmem)
              · exact Or.inr ⟨t, ht', hpt⟩
        · simp only [hp, hmem, Bool.false_eq_true, if_false]
          rw [ih (acc ++ [pair])]
          constructor
          · rintro (h | ⟨t, ht, hpt⟩)
            · rcases List.mem_append.mp h with h' | h'
              · exact Or.inl h'
              · rw [List.mem_singleton] at h'
                subst h'
                exact Or.inr ⟨comp, List.mem_cons_self _ _, hp⟩
            · exact Or.inr ⟨t, List.mem_cons_of_mem _ ht, hpt⟩
          · rintro (h | ⟨t, ht, hpt⟩)
            · exact Or.inl (List.mem_append.mpr (Or.inl h))
            · rcases List.mem_cons.mp ht with rfl | ht'
              · rw [hp] at hpt
                injection hpt with hpt
                subst hpt
                exact Or.inl (List.mem_append.mpr (Or.inr (List.mem_singleton.mpr rfl)))
              · exact Or.inr ⟨t, ht', hpt⟩
  rw [unique_service_envs, main tokens []]
  simp

theorem countOcc_append {α : Type u} [DecidableEq α] (a : α) (l1 l2 : List α) :
    countOcc a (l1 ++ l2) = countOcc a l1 + countOcc a l2 := by
  simp [countOcc, List.filter_append]

theorem countOcc_eq_zero_of_not_mem {α : Type u} [DecidableEq α] {a : α} {l : List α}
    (h : a ∉ l) : countOcc a l = 0 := by
  induction l with
  | nil => rfl
  | cons b tl ih =>
    have hb : ¬ (b = a) := fun hc => h (hc ▸ List.mem_cons_self b tl)
    simp only [countOcc, List.filter_cons, decide_eq_true_eq]
    rw [if_neg (by simpa using hb)]
    exact ih (fun hc => h (List.mem_cons_of_mem _ hc))

theorem countOcc_map_inj {α β : Type u} [DecidableEq α] [DecidableEq β]
    (f : α → β) (hf : Function.Injective f) (a : α) (l : List α) :
    countOcc (f a) (l.map f) = countOcc a l := by
  induction l with
  | nil => rfl
  | cons b tl ih =>
    simp only [countOcc, List.map_cons, List.filter_cons] at ih ⊢
    by_cases hb : b = a
    · subst hb
      rw [if_pos (by simp), if_pos (by simp)]
      simpa using ih
    · have hfb : ¬ (f b = f a) := fun hc => hb (hf hc)
      rw [if_neg (by simpa using hfb), if_neg (by simpa using hb)]
      exact ih

theorem countOcc_filter_of_pred {α : Type u} [DecidableEq α] (p : α → Bool) {a : α}
    (ha : p a = true) (l : List α) :
    countOcc a (l.filter p) = countOcc a l := by
  induction l with
  | nil => rfl
  | cons b tl ih =>
    simp only [countOcc] at ih ⊢
    rw [List.filter_cons]
    by_cases hp : p b = true
    · rw [if_pos hp, List.filter_cons, List.filter_cons]
      by_cases hb : b = a
      · rw [if_pos (by simp [hb]), if_pos (by simp [hb]), List.length_cons,
          List.length_cons, ih]
      · rw [if_neg (by simp [hb]), if_neg (by simp [hb]), ih]
    · rw [if_neg hp, List.filter_cons]
      by_cases hb : b = a
      · subst hb
        exact absurd ha hp
      · rw [if_neg (by simp [hb]), ih]

theorem countOcc_perm {α : Type u} [DecidableEq α] {l1 l2 : List α} (h : l1.Perm l2)
    (a : α) : countOcc a l1 = countOcc a l2 := by
  simp only [countOcc]
  exact (h.filter _).length_eq

theorem countOcc_le_one_of_nodup {α : Type u} [DecidableEq α] {l : List α}
    (h : l.Nodup) (a : α) : countOcc a l ≤ 1 := by
  induction l with
  | nil => simp [countOcc]
  | cons b tl ih =>
    rcases List.nodup_cons.mp h with ⟨hb, htl⟩
    by_cases hba : b = a
    · subst hba
      have hz : countOcc b tl = 0 := countOcc_eq_zero_of_not_mem hb
      simp only [countOcc, List.filter_cons] at hz ⊢
      rw [if_pos (by simp), List.length_cons, hz]
    · simp only [countOcc, List.filter_cons]
      rw [if_neg (by simpa using hba)]
      exact ih htl

theorem countOcc_eq_one_of_nodup_mem {α : Type u} [DecidableEq α] {l : List α}
    (h : l.Nodup) {a : α} (ha : a ∈ l) : countOcc a l = 1 := by
  induction l with
  | nil => cases ha
  | cons b tl ih =>
    rcases List.nodup_cons.mp h with ⟨hb, htl⟩
    by_cases hba : b = a
    · subst hba
      have hz : countOcc b tl = 0 := countOcc_eq_zero_of_not_mem hb
      simp only [countOcc, List.filter_cons] at hz ⊢
      rw [if_pos (by simp), List.length_cons, hz]
    · rcases List.mem_cons.mp ha with hc | hc
      · exact absurd hc.symm hba
      · simp only [countOcc, List.filter_cons]
        rw [if_neg (by simpa using hba)]
        exact ih htl hc

/-! ### Claim theorems: Output Aggregator -/

/-- Claim C6: after deduplication by `(base-service, environment)`, the
aggregator performs exactly one Provisioner output query for a pair to which
one (or more) non-ephemeral tokens reduce (provided the pair's
`stable_deployments` directory exists and no query fails first), and never
more than one stable-location query for any pair.  `hashSetOrder` is the
iteration order of the deduplication `HashSet`, an arbitrary permutation of
its contents. -/
theorem c6_dedup_single_query (ctx : OutputContext)
    (hashSetOrder : List (String × String) → List (String × String))
    (deps : List String) (s e : String)
    (hperm : (hashSetOrder (unique_service_envs
        (deps.filter (fun d => !(strEndsWith d ":dev"))))).Perm
      (unique_service_envs (deps.filter (fun d => !(strEndsWith d ":dev")))))
    (hok : ∀ p ∈ unique_service_envs (deps.filter (fun d => !(strEndsWith d ":dev"))),
      ctx.dirExists .stableDeployments p.1 = true →
      (ctx.terraformOutput .stableDeployments p.1 p.2).isOk = true)
    (t : String) (ht : t ∈ deps) (hdev : strEndsWith t ":dev" = false)
    (hparse : parseToken t = some (s, e))
    (hdir : ctx.dirExists .stableDeployments s = true) :
    countOcc (DeployKind.stableDeployments, s, e)
      (get_combined_output ctx hashSetOrder deps).1 = 1 ∧
    ∀ s' e', countOcc (DeployKind.stableDeployments, s', e')
      (get_combined_output ctx hashSetOrder deps).1 ≤ 1 := by
  set U := unique_service_envs (deps.filter (fun d => !(strEndsWith d ":dev"))) with hU
  set order := hashSetOrder U with horder
  have hok' : ∀ p ∈ order, ctx.dirExists .stableDeployments p.1 = true →
      (ctx.terraformOutput .stableDeployments p.1 p.2).isOk = true :=
    fun p hp => hok p (hperm.mem_iff.mp hp)
  have hchar := runStable_allOk ctx order [] hok'
  have hinj : Function.Injective
      (fun p : String × String => ((DeployKind.stableDeployments : DeployKind), p.1, p.2)) := by
    intro a b hab
    simp only [Prod.mk.injEq] at hab
    exact Prod.ext hab.2.1 hab.2.2
  have hqueries : (get_combined_output ctx hashSetOrder deps).1 =
      ((order.filter fun p => ctx.dirExists .stableDeployments p.1).map
        (fun p => (DeployKind.stableDeployments, p.1, p.2))) ++
      (runDevQueries ctx (deps.filter (fun d => strEndsWith d ":dev"))
        (order.foldl (stableStep ctx) [])).1 := by
    rw [get_combined_output]
    rw [← horder]
    rw [hchar]
  have hdevzero : ∀ s' e',
      countOcc ((DeployKind.stableDeployments, s', e') : Query)
        (runDevQueries ctx (deps.filter (fun d => strEndsWith d ":dev"))
          (order.foldl (stableStep ctx) [])).1 = 0 := by
    intro s' e'
    apply countOcc_eq_zero_of_not_mem
    intro hmem
    have := runDev_kinds ctx _ _ _ hmem
    simp at this
  have hcount : ∀ s' e',
      countOcc ((DeployKind.stableDeployments, s', e') : Query)
        (get_combined_output ctx hashSetOrder deps).1 =
      countOcc ((s', e') : String × String)
        (order.filter fun p => ctx.dirExists .stableDeployments p.1) := by
    intro s' e'
    rw [hqueries, countOcc_append, hdevzero, Nat.add_zero]
    exact countOcc_map_inj _ hinj (s', e') _
  have hUnodup : U.Nodup := unique_service_envs_nodup _
  constructor
  · rw [hcount]
    have hmemU : (s, e) ∈ U := by
      rw [hU, mem_unique_service_envs]
      exact ⟨t, List.mem_filter.mpr ⟨ht, by simp [hdev]⟩, hparse⟩
    have hfil : ((s, e) : String × String) ∈
        (order.filter fun p => ctx.dirExists .stableDeployments p.1) :=
      List.mem_filter.mpr ⟨hperm.mem_iff.mpr hmemU, by simpa using hdir⟩
    have hnodup_order : order.Nodup := hperm.nodup_iff.mpr hUnodup
    have hnodup_fil : (order.filter fun p =>
        ctx.dirExists .stableDeployments p.1).Nodup := hnodup_order.filter _
    exact countOcc_eq_one_of_nodup_mem hnodup_fil hfil
  · intro s' e'
    rw [hcount]
    calc countOcc ((s', e') : String × String)
          (order.filter fun p => ctx.dirExists .stableDeployments p.1)
        ≤ countOcc ((s', e') : String × String) order := by
          simp only [countOcc]
          exact ((List.filter_sublist order).filter _).length_le
      _ = countOcc ((s', e') : String × String) U := countOcc_perm hperm _
      _ ≤ 1 := countOcc_le_one_of_nodup hUnodup _

/-- Witness for C6: a concrete registry-free run in which two module tokens
of service `db` reduce to the pair `(db, prod)` and exactly one stable query
is performed for it. -/
theorem c6_dedup_single_query_witness :
    (id (unique_service_envs
        (exampleC6Deps.filter (fun d => !(strEndsWith d ":dev"))))).Perm
      (unique_service_envs (exampleC6Deps.filter (fun d => !(strEndsWith d ":dev")))) ∧
    "db/mod1:prod" ∈ exampleC6Deps ∧
    strEndsWith "db/mod1:prod" ":dev" = false ∧
    parseToken "db/mod1:prod" = some ("db", "prod") ∧
    exampleC6Ctx.dirExists .stableDeployments "db" = true ∧
    countOcc (DeployKind.stableDeployments, "db", "prod")
      (get_combined_output exampleC6Ctx id exampleC6Deps).1 = 1 :=
  ⟨by decide, by decide, by decide, by decide, by decide,
   (c6_dedup_single_query exampleC6Ctx id exampleC6Deps "db" "prod" (by decide)
     (by decide) "db/mod1:prod" (by decide) (by decide) (by decide) (by decide)).1⟩

/-- The dev loop's outcome: the first dev query error when one occurs
(independently of the accumulated map), otherwise the fold of all merges. -/
theorem runDev_char (ctx : OutputContext) (l : List String)
    (c : List (String × Value)) :
    (runDevQueries ctx l c).2 =
      match devFirstError ctx l with
      | some e => .error e
      | none => .ok (l.foldl (devStep ctx) c) := by
  induction l generalizing c with
  | nil => simp [runDevQueries, devFirstError]
  | cons comp rest ih =>
    rcases hs : strSplitOn comp ':' with _ | ⟨a, _ | ⟨b, _ | _⟩⟩
    · simp only [runDevQueries, devFirstError, hs]
      rw [ih, List.foldl_cons]
      have : devStep ctx c comp = c := by simp [devStep, hs]
      rw [this]
    · simp only [runDevQueries, devFirstError, hs]
      rw [ih, List.foldl_cons]
      have : devStep ctx c comp = c := by simp [devStep, hs]
      rw [this]
    · by_cases hd : ctx.dirExists .tempDeployments a = true
      · cases hq : ctx.terraformOutput .tempDeployments a b with
        | error e =>
          simp [runDevQueries, devFirstError, hs, hd, hq]
        | ok out =>
          have hstep : devStep ctx c comp = merge_outputs c (.objectOf out) := by
            simp [devStep, hs, hd, devEntries, hq]
          simp only [runDevQueries, devFirstError, hs, hd, if_true, hq,
            List.foldl_cons, hstep]
          exact ih _
      · have hstep : devStep ctx c comp = c := by simp [devStep, hs, hd]
        simp only [runDevQueries, devFirstError, hs, hd, Bool.false_eq_true, if_false,
          List.foldl_cons, hstep]
        exact ih _
    · simp only [runDevQueries, devFirstError, hs]
      rw [ih, List.foldl_cons]
      have : devStep ctx c comp = c := by simp [devStep, hs]
      rw [this]

/-- Under the key-disjointness hypothesis, the value the non-dev phase gives
to a key does not depend on which permutation of the deduplicated set is
iterated. -/
theorem stableValue_perm_of_disj (ctx : OutputContext) (k : String)
    {l1 l2 U : List (String × String)} (h1 : l1.Perm U) (h2 : l2.Perm U)
    (hUnodup : U.Nodup)
    (hdisj : ∀ p ∈ U, ∀ q ∈ U, p ≠ q →
      contributesKey ctx k p = true → contributesKey ctx k q = true → False) :
    stableValue ctx k l1 = stableValue ctx k l2 := by
  rw [stableValue_char, stableValue_char]
  have hf1 : (l1.filter (contributesKey ctx k)).Perm (U.filter (contributesKey ctx k)) :=
    h1.filter _
  have hf2 : (l2.filter (contributesKey ctx k)).Perm (U.filter (contributesKey ctx k)) :=
    h2.filter _
  cases hFU : U.filter (contributesKey ctx k) with
  | nil =>
    rw [hFU] at hf1 hf2
    rw [hf1.eq_nil, hf2.eq_nil]
  | cons p tl =>
    cases tl with
    | nil =>
      rw [hFU] at hf1 hf2
      rw [List.perm_singleton.mp hf1, List.perm_singleton.mp hf2]
    | cons q tl2 =>
      exfalso
      have hnd : (U.filter (contributesKey ctx k)).Nodup := hUnodup.filter _
      rw [hFU] at hnd
      have hpq : p ≠ q := by
        rcases List.nodup_cons.mp hnd with ⟨hp, _⟩
        exact fun hc => hp (hc ▸ List.mem_cons_self q tl2)
      have hpU := List.mem_filter.mp (hFU ▸ (List.mem_cons_self p (q :: tl2)))
      have hqU := List.mem_filter.mp
        (hFU ▸ (List.mem_cons_of_mem p (List.mem_cons_self q tl2)))
      exact hdisj p hpU.1 q hqU.1 hpq hpU.2 hqU.2

/-- Claim C5 (amended): combining is last-writer-wins, with the non-ephemeral
group processed first — deduplicated, in the `HashSet`'s unspecified
iteration order — and then the ephemeral group in input order; the spec's
merge example holds, an ephemeral output overrides a colliding non-ephemeral
one, and the combined map is independent of the set-iteration order whenever
the deduplicated non-ephemeral queries contribute pairwise disjoint keys. -/
theorem c5_combining_lww :
    merge_outputs (merge_outputs [] (.objectOf [("x", .scalar "1")]))
      (.objectOf [("x", .scalar "2"), ("y", .scalar "3")]) =
      [("x", .scalar "2"), ("y", .scalar "3")] ∧
    (get_combined_output exampleOutputCtx id ["a:prod", "c:dev"]).2 =
      .ok (.objectOf [("x", .scalar "9")]) ∧
    ∀ (ctx : OutputContext)
      (order1 order2 : List (String × String) → List (String × String))
      (deps : List String),
      (order1 (unique_service_envs (deps.filter (fun d => !(strEndsWith d ":dev"))))).Perm
        (unique_service_envs (deps.filter (fun d => !(strEndsWith d ":dev")))) →
      (order2 (unique_service_envs (deps.filter (fun d => !(strEndsWith d ":dev"))))).Perm
        (unique_service_envs (deps.filter (fun d => !(strEndsWith d ":dev")))) →
      (∀ p ∈ unique_service_envs (deps.filter (fun d => !(strEndsWith d ":dev"))),
        ctx.dirExists .stableDeployments p.1 = true →
        (ctx.terraformOutput .stableDeployments p.1 p.2).isOk = true) →
      (∀ k, ∀ p ∈ unique_service_envs (deps.filter (fun d => !(strEndsWith d ":dev"))),
        ∀ q ∈ unique_service_envs (deps.filter (fun d => !(strEndsWith d ":dev"))),
        p ≠ q → contributesKey ctx k p = true → contributesKey ctx k q = true → False) →
      ∀ k, resultLookup (get_combined_output ctx order1 deps).2 k =
        resultLookup (get_combined_output ctx order2 deps).2 k := by
  refine ⟨by decide, by decide, ?_⟩
  intro ctx order1 order2 deps hperm1 hperm2 hok hdisj k
  set U := unique_service_envs (deps.filter (fun d => !(strEndsWith d ":dev"))) with hU
  set devs := deps.filter (fun d => strEndsWith d ":dev") with hdevs
  have hok1 : ∀ p ∈ order1 U, ctx.dirExists .stableDeployments p.1 = true →
      (ctx.terraformOutput .stableDeployments p.1 p.2).isOk = true :=
    fun p hp => hok p (hperm1.mem_iff.mp hp)
  have hok2 : ∀ p ∈ order2 U, ctx.dirExists .stableDeployments p.1 = true →
      (ctx.terraformOutput .stableDeployments p.1 p.2).isOk = true :=
    fun p hp => hok p (hperm2.mem_iff.mp hp)
  have hres1 : (get_combined_output ctx order1 deps).2 =
      (runDevQueries ctx devs ((order1 U).foldl (stableStep ctx) [])).2.map
        Value.objectOf := by
    rw [get_combined_output, runStable_allOk ctx (order1 U) [] hok1]
  have hres2 : (get_combined_output ctx order2 deps).2 =
      (runDevQueries ctx devs ((order2 U).foldl (stableStep ctx) [])).2.map
        Value.objectOf := by
    rw [get_combined_output, runStable_allOk ctx (order2 U) [] hok2]
  rw [hres1, hres2, runDev_char, runDev_char]
  cases hfe : devFirstError ctx devs with
  | some e => rfl
  | none =>
    have hm : lookupKey k (devs.foldl (devStep ctx) ((order1 U).foldl (stableStep ctx) [])) =
        lookupKey k (devs.foldl (devStep ctx) ((order2 U).foldl (stableStep ctx) [])) := by
      rw [lookup_devFold, lookup_devFold, lookup_stableFold, lookup_stableFold,
        stableValue_perm_of_disj ctx k hperm1 hperm2 (unique_service_envs_nodup _) (hdisj k)]
    simp only [Except.map, resultLookup, Value.objectOf, toList_ofList]
    rw [hm]

/-- Counterexample to C5 as stated: on the token list `["a:prod","b:prod"]`
whose two deduplicated queries collide on the key `x`, iterating the
deduplication set in reversed order — a legitimate iteration order of the
unordered `HashSet` — produces a different combined map than processing the
non-ephemeral group in input order, so the combination is not determined by
the input token list alone. -/
theorem c5_counterexample :
    (List.reverse (unique_service_envs
        (exampleCollidingDeps.filter (fun d => !(strEndsWith d ":dev"))))).Perm
      (unique_service_envs (exampleCollidingDeps.filter (fun d => !(strEndsWith d ":dev")))) ∧
    (get_combined_output exampleOutputCtx List.reverse exampleCollidingDeps).2 ≠
      (get_combined_output exampleOutputCtx id exampleCollidingDeps).2 :=
  ⟨by decide, by decide⟩

/-- Witness for the amended C5 at a concrete input: with a single
deduplicated pair the key-disjointness hypothesis holds, and two different
set-iteration orders give the same lookup result. -/
theorem c5_combining_lww_witness :
    (id (unique_service_envs
        (exampleC6Deps.filter (fun d => !(strEndsWith d ":dev"))))).Perm
      (unique_service_envs (exampleC6Deps.filter (fun d => !(strEndsWith d ":dev")))) ∧
    (List.reverse (unique_service_envs
        (exampleC6Deps.filter (fun d => !(strEndsWith d ":dev"))))).Perm
      (unique_service_envs (exampleC6Deps.filter (fun d => !(strEndsWith d ":dev")))) ∧
    resultLookup (get_combined_output exampleC6Ctx id exampleC6Deps).2 "db_out" =
      resultLookup (get_combined_output exampleC6Ctx List.reverse exampleC6Deps).2 "db_out" :=
  ⟨by decide, by decide,
   c5_combining_lww.2.2 exampleC6Ctx id List.reverse exampleC6Deps
     (by decide) (by decide) (by decide)
     (fun k p hp q hq hpq _ _ => by
       have hUeval : unique_service_envs
           (exampleC6Deps.filter (fun d => !(strEndsWith d ":dev"))) =
           [("db", "prod")] := by decide
       rw [hUeval] at hp hq
       exact hpq ((List.mem_singleton.mp hp).trans (List.mem_singleton.mp hq).symm))
     "db_out"⟩

/-! ### Lemmas about the Dependency Graph Resolver -/

theorem strContains_iff (l : List String) (x : String) :
    l.contains x = true ↔ x ∈ l := by
  constructor
  · exact List.mem_of_elem_eq_true
  · exact List.elem_eq_true_of_mem

theorem setInsert_eq_cons {x : String} {l : List String} (h : l.contains x = false) :
    setInsert x l = x :: l := by
  rw [setInsert, h]
  rfl

theorem lookup_mem {β : Type u} {k : String} {v : β} :
    ∀ {l : List (String × β)}, lookupKey k l = some v → (k, v) ∈ l := by
  intro l
  induction l with
  | nil => intro h; cases h
  | cons kv rest ih =>
    obtain ⟨k0, v0⟩ := kv
    intro h
    rw [lookupKey] at h
    by_cases hk : k0 = k
    · rw [if_pos hk] at h
      injection h with h
      subst hk
      subst h
      exact List.mem_cons_self _ _
    · rw [if_neg hk] at h
      exact List.mem_cons_of_mem _ (ih h)

theorem lookup_isSome_mem_keys {β : Type u} {k : String} {l : List (String × β)}
    (h : (lookupKey k l).isSome = true) : k ∈ l.map Prod.fst := by
  cases hv : lookupKey k l with
  | none => rw [hv] at h; simp at h
  | some v => exact List.mem_map.mpr ⟨(k, v), lookup_mem hv, rfl⟩

theorem wf_name_eq {reg : ServiceRegistry} (hwf : reg.WF) {k : String}
    {v : DiscoveredService} (h : lookupKey k reg.services = some v) :
    k = v.config.name := hwf.2 (k, v) (lookup_mem h)

theorem wf_keyed {reg : ServiceRegistry} (hwf : reg.WF) {k : String}
    {v : DiscoveredService} (h : lookupKey k reg.services = some v) :
    Keyed reg v := by
  have := wf_name_eq hwf h
  rw [Keyed, ← this]
  exact h

theorem keyed_name_mem {reg : ServiceRegistry} {s : DiscoveredService}
    (h : Keyed reg s) : s.config.name ∈ registryNames reg :=
  List.mem_map.mpr ⟨(s.config.name, s), lookup_mem h, rfl⟩

theorem edge_intro {reg : ServiceRegistry} {s : DiscoveredService}
    (hkey : Keyed reg s) {dep : String} (hdep : dep ∈ s.config.depends) {y : String}
    (hres : reg.resolve_dependency_name dep s.path = .ok y)
    (hsome : (lookupKey y reg.services).isSome = true) :
    dependsOn reg s.config.name y :=
  ⟨s, hkey, dep, hdep, hres, hsome⟩

theorem edge_elim {reg : ServiceRegistry} {s : DiscoveredService}
    (hkey : Keyed reg s) {y : String} (h : dependsOn reg s.config.name y) :
    ∃ dep ∈ s.config.depends, reg.resolve_dependency_name dep s.path = .ok y ∧
      (lookupKey y reg.services).isSome = true := by
  obtain ⟨sa, hsa, dep, hdep, hres, hsome⟩ := h
  rw [Keyed] at hkey
  rw [hkey] at hsa
  injection hsa with hsa
  subst hsa
  exact ⟨dep, hdep, hres, hsome⟩

theorem dependsOn_iff_B (reg : ServiceRegistry) (a b : String) :
    dependsOn reg a b ↔ dependsOnB reg a b = true := by
  constructor
  · rintro ⟨sa, hsa, dep, hdep, hres, hsome⟩
    rw [dependsOnB, hsa]
    rw [List.any_eq_true]
    refine ⟨dep, hdep, ?_⟩
    rw [hres]
    simp [hsome]
  · intro h
    rw [dependsOnB] at h
    cases hsa : lookupKey a reg.services with
    | none => rw [hsa] at h; cases h
    | some sa =>
      rw [hsa, List.any_eq_true] at h
      obtain ⟨dep, hdep, hd⟩ := h
      cases hres : reg.resolve_dependency_name dep sa.path with
      | error e => rw [hres] at hd; cases hd
      | ok n =>
        rw [hres] at hd
        rw [Bool.and_eq_true, beq_iff_eq] at hd
        exact ⟨sa, hsa, dep, hdep, hd.1 ▸ hres, hd.2⟩

theorem dependsOn_mem_keys {reg : ServiceRegistry} {a b : String}
    (h : dependsOn reg a b) :
    a ∈ reg.services.map Prod.fst ∧ b ∈ reg.services.map Prod.fst := by
  obtain ⟨sa, hsa, dep, hdep, hres, hsome⟩ := h
  exact ⟨List.mem_map.mpr ⟨(a, sa), lookup_mem hsa, rfl⟩, lookup_isSome_mem_keys hsome⟩

theorem acyclic_of_rank_check (reg : ServiceRegistry) (rank : String → Nat)
    (h : acyclicByRank reg rank = true) : Acyclic reg := by
  have hrank : ∀ a b, dependsOn reg a b → rank b < rank a := by
    intro a b hab
    obtain ⟨ha, hb⟩ := dependsOn_mem_keys hab
    rw [acyclicByRank, List.all_eq_true] at h
    have := (List.all_eq_true.mp (h a ha)) b hb
    rw [(dependsOn_iff_B reg a b).mp hab] at this
    simpa using this
  intro a hcyc
  have hlt : ∀ {x y}, Relation.TransGen (dependsOn reg) x y → rank y < rank x := by
    intro x y hxy
    induction hxy with
    | single h1 => exact hrank _ _ h1
    | tail _ h1 ih => exact (hrank _ _ h1).trans ih
  exact absurd (hlt hcyc) (lt_irrefl _)

theorem order_reach_closed {reg : ServiceRegistry} {st : DfsState}
    (hgood : GoodState reg st) {y x : String}
    (hr : Relation.ReflTransGen (dependsOn reg) y x) (hy : y ∈ st.deployment_order) :
    x ∈ st.deployment_order := by
  induction hr using Relation.ReflTransGen.head_induction_on with
  | refl => exact hy
  | head h1 _ ih => exact ih (hgood.order_closed _ hy _ h1)

/-- A dependency-closed, forward-edge-free, self-edge-free list is
topologically sorted: everything transitively reachable from an element lies
strictly before it. -/
theorem topo_split {reg : ServiceRegistry} {L : List String}
    (hclosed : ∀ x ∈ L, ∀ y, dependsOn reg x y → y ∈ L)
    (hsorted : L.Pairwise (fun u v => ¬ dependsOn reg u v))
    (hirrefl : ∀ x ∈ L, ¬ dependsOn reg x x) :
    ∀ l1 x l2, L = l1 ++ x :: l2 → ∀ y, Relation.TransGen (dependsOn reg) x y →
      y ∈ l1 := by
  have hstep : ∀ l1 x l2, L = l1 ++ x :: l2 → ∀ b, dependsOn reg x b → b ∈ l1 := by
    intro l1 x l2 hsplit b hxb
    have hxL : x ∈ L := by rw [hsplit]; simp
    have hbL : b ∈ L := hclosed x hxL b hxb
    rw [hsplit] at hbL
    rcases List.mem_append.mp hbL with hb1 | hb2
    · exact hb1
    · rcases List.mem_cons.mp hb2 with hbx | hbl2
      · exact absurd (hbx ▸ hxb) (hirrefl x hxL)
      · exfalso
        rw [hsplit] at hsorted
        have := (List.pairwise_append.mp hsorted).2.1
        exact (List.pairwise_cons.mp this).1 b hbl2 hxb
  intro l1 x l2 hsplit y htg
  revert hsplit
  revert l1 l2
  induction htg using Relation.TransGen.head_induction_on with
  | base h1 =>
    intro l1 l2 hsplit
    exact hstep l1 _ l2 hsplit _ h1
  | @ih a c h1 htg2 ih =>
    intro l1 l2 hsplit
    have hc1 : c ∈ l1 := hstep l1 _ l2 hsplit _ h1
    obtain ⟨l1a, l1b, hl1⟩ := List.append_of_mem hc1
    have hsplit' : L = l1a ++ c :: (l1b ++ a :: l2) := by
      rw [hsplit, hl1]
      simp
    rw [hl1]
    exact List.mem_append.mpr (Or.inl (ih l1a (l1b ++ a :: l2) hsplit'))

theorem filter_length_mono {l : List String} {p q : String → Bool}
    (h : ∀ x ∈ l, q x = true → p x = true) :
    (l.filter q).length ≤ (l.filter p).length := by
  induction l with
  | nil => simp
  | cons b tl ih =>
    have htl := ih (fun x hx => h x (List.mem_cons_of_mem _ hx))
    rw [List.filter_cons, List.filter_cons]
    by_cases hq : q b = true
    · rw [if_pos hq, if_pos (h b (List.mem_cons_self _ _) hq)]
      simpa using htl
    · rw [if_neg hq]
      by_cases hp : p b = true
      · rw [if_pos hp]
        exact htl.trans (Nat.le_succ _)
      · rw [if_neg hp]
        exact htl

theorem filter_length_strict {l : List String} {p q : String → Bool} (hnd : l.Nodup)
    {a : String} (ha : a ∈ l) (hpa : p a = true) (hqa : q a = false)
    (h : ∀ x ∈ l, q x = true → p x = true) :
    (l.filter q).length < (l.filter p).length := by
  induction l with
  | nil => cases ha
  | cons b tl ih =>
    rcases List.nodup_cons.mp hnd with ⟨hb, htlnd⟩
    have hsub := fun x hx => h x (List.mem_cons_of_mem _ hx)
    rw [List.filter_cons, List.filter_cons]
    rcases List.mem_cons.mp ha with rfl | hatl
    · rw [if_neg (by simp [hqa]), if_pos hpa]
      exact Nat.lt_succ_of_le (filter_length_mono hsub)
    · have hlt := ih htlnd hatl hsub
      by_cases hq : q b = true
      · rw [if_pos hq, if_pos (h b (List.mem_cons_self _ _) hq)]
        simpa using hlt
      · rw [if_neg hq]
        by_cases hp : p b = true
        · rw [if_pos hp]
          exact Nat.lt_succ_of_lt hlt
        · rw [if_neg hp]
          exact hlt

theorem unvisitedCount_mono (reg : ServiceRegistry) {v1 v2 : List String}
    (hsub : ∀ x, v1.contains x = true → v2.contains x = true) :
    unvisitedCount reg v2 ≤ unvisitedCount reg v1 := by
  apply filter_length_mono
  intro x _ hq
  rw [Bool.not_eq_true'] at hq ⊢
  cases hp : v1.contains x with
  | false => rfl
  | true => rw [hsub x hp] at hq; cases hq

theorem unvisitedCount_strict (reg : ServiceRegistry) {visited : List String}
    {name : String} (hmem : name ∈ registryNames reg)
    (hnv : visited.contains name = false) :
    unvisitedCount reg (name :: visited) < unvisitedCount reg visited := by
  apply filter_length_strict (List.nodup_dedup _) (List.mem_dedup.mpr hmem)
  · rw [Bool.not_eq_true', hnv]
  · have hc : (name :: visited).contains name = true :=
      (strContains_iff _ _).mpr (List.mem_cons_self _ _)
    rw [hc]
    rfl
  · intro x _ hq
    rw [Bool.not_eq_true'] at hq ⊢
    cases hp : visited.contains x with
    | false => rfl
    | true =>
      have hc : (name :: visited).contains x = true :=
        (strContains_iff _ _).mpr
          (List.mem_cons_of_mem _ ((strContains_iff _ _).mp hp))
      rw [hc] at hq
      cases hq

theorem unvisitedCount_init_lt (reg : ServiceRegistry) :
    unvisitedCount reg [] < reg.services.length + 1 := by
  apply Nat.lt_succ_of_le
  calc ((registryNames reg).dedup.filter _).length
      ≤ (registryNames reg).dedup.length := List.length_filter_le _ _
    _ ≤ (registryNames reg).length := (List.dedup_sublist _).length_le
    _ = reg.services.length := by rw [registryNames, List.length_map]

/-- The loop lemma behind `dfs_posts`: if every successful call of the step
function satisfies `RecPost`, then every successful dependency-loop run
satisfies `LoopPost`. -/
theorem loopPost_of_step (reg : ServiceRegistry) (hwf : reg.WF) (s : DiscoveredService)
    (step : DiscoveredService → DfsState → Except EnvieError DfsState)
    (hstep : ∀ ds st st', GoodState reg st → Keyed reg ds → step ds st = .ok st' →
      RecPost reg ds st st') :
    ∀ (deps : List String) (st st' : DfsState), GoodState reg st →
      depsLoop reg step s.path deps st = .ok st' → LoopPost reg s deps st st' := by
  intro deps
  induction deps with
  | nil =>
    intro st st' hgood h
    rw [depsLoop] at h
    injection h with h
    subst h
    exact { stack_eq := rfl, order_prefix := List.prefix_refl _,
            visited_mono := fun _ hx => hx, good := hgood,
            visited_new_via := fun x hx => Or.inl hx,
            dep_targets := fun dep hdep => absurd hdep (List.not_mem_nil dep) }
  | cons dep rest ih =>
    intro st st' hgood h
    cases hres : reg.resolve_dependency_name dep s.path with
    | error e =>
      simp only [depsLoop, hres] at h
      cases h
    | ok y =>
      simp only [depsLoop, hres] at h
      cases hl : lookupKey y reg.services with
      | none =>
        simp only [hl] at h
        have hrest := ih st st' hgood h
        refine { stack_eq := hrest.stack_eq, order_prefix := hrest.order_prefix,
                 visited_mono := hrest.visited_mono, good := hrest.good,
                 visited_new_via := ?_, dep_targets := ?_ }
        · intro x hx
          rcases hrest.visited_new_via x hx with hx1 | ⟨d, hd, rest'⟩
          · exact Or.inl hx1
          · exact Or.inr ⟨d, List.mem_cons_of_mem _ hd, rest'⟩
        · intro d hd y' hres' hsome'
          rcases List.mem_cons.mp hd with rfl | hd'
          · rw [hres] at hres'
            injection hres' with hres'
            subst hres'
            rw [hl] at hsome'
            simp at hsome'
          · exact hrest.dep_targets d hd' y' hres' hsome'
      | some ds =>
        simp only [hl] at h
        cases hmid : step ds st with
        | error e =>
          simp only [hmid] at h
          cases h
        | ok stMid =>
          simp only [hmid] at h
          have hkds : Keyed reg ds := wf_keyed hwf hl
          have hyname : y = ds.config.name := wf_name_eq hwf hl
          have hpostMid := hstep ds st stMid hgood hkds hmid
          have hrest := ih stMid st' hpostMid.good h
          refine { stack_eq := hrest.stack_eq.trans hpostMid.stack_eq,
                   order_prefix := hpostMid.order_prefix.trans hrest.order_prefix,
                   visited_mono := fun x hx =>
                     hrest.visited_mono x (hpostMid.visited_mono x hx),
                   good := hrest.good,
                   visited_new_via := ?_, dep_targets := ?_ }
          · intro x hx
            rcases hrest.visited_new_via x hx with hx1 | ⟨d, hd, y2, hr2, hs2, hrtg2⟩
            · rcases hpostMid.visited_new_reachable x hx1 with hx2 | hrtg2
              · exact Or.inl hx2
              · refine Or.inr ⟨dep, List.mem_cons_self _ _, y, hres, ?_, ?_⟩
                · rw [hl]
                  rfl
                · rw [hyname]
                  exact hrtg2
            · exact Or.inr ⟨d, List.mem_cons_of_mem _ hd, y2, hr2, hs2, hrtg2⟩
          · intro d hd y' hres' hsome'
            rcases List.mem_cons.mp hd with rfl | hd'
            · rw [hres] at hres'
              injection hres' with hres'
              subst hres'
              constructor
              · apply hrest.order_prefix.subset
                rw [hyname]
                exact hpostMid.name_in_order
              · intro x hrtg
                rw [hyname] at hrtg
                exact hrest.visited_mono x (hpostMid.reachable_visited x hrtg)
            · exact hrest.dep_targets d hd' y' hres' hsome'

theorem resolveRec_zero (reg : ServiceRegistry) (s : DiscoveredService) (st : DfsState) :
    resolveRec reg 0 s st = .error (.DependencyError "dependency recursion limit exceeded") :=
  rfl

theorem resolveRec_succ_stack {reg : ServiceRegistry} {s : DiscoveredService}
    {st : DfsState} (fuel : Nat)
    (hstack : st.recursion_stack.contains s.config.name = true) :
    resolveRec reg (fuel + 1) s st =
      .error (.DependencyError ("Cyclic dependency detected involving service " ++
        s.config.name)) := by
  rw [resolveRec, if_pos hstack]

theorem resolveRec_succ_skip {reg : ServiceRegistry} {s : DiscoveredService}
    {st : DfsState} (fuel : Nat)
    (hstack : st.recursion_stack.contains s.config.name = false)
    (hvis : st.visited.contains s.config.name = true) :
    resolveRec reg (fuel + 1) s st = .ok st := by
  rw [resolveRec, if_neg (by rw [hstack]; simp), if_pos hvis]

theorem resolveRec_succ_full {reg : ServiceRegistry} {s : DiscoveredService}
    {st : DfsState} (fuel : Nat)
    (hstack : st.recursion_stack.contains s.config.name = false)
    (hvis : st.visited.contains s.config.name = false) :
    resolveRec reg (fuel + 1) s st =
      match depsLoop reg (resolveRec reg fuel) s.path s.config.depends
          ⟨setInsert s.config.name st.visited, setInsert s.config.name st.recursion_stack,
           st.deployment_order⟩ with
      | .error e => .error e
      | .ok st2 =>
        .ok ⟨st2.visited, st2.recursion_stack.erase s.config.name,
             st2.deployment_order ++ [s.config.name]⟩ := by
  rw [resolveRec, if_neg (by rw [hstack]; simp), if_neg (by rw [hvis]; simp)]

/-- Marking an unvisited, un-stacked name preserves the DFS invariant. -/
theorem goodState_insert {reg : ServiceRegistry} {st : DfsState} {name : String}
    (hgood : GoodState reg st)
    (hstack : st.recursion_stack.contains name = false)
    (hvis : st.visited.contains name = false) :
    GoodState reg ⟨setInsert name st.visited, setInsert name st.recursion_stack,
      st.deployment_order⟩ := by
  have hnv : name ∉ st.visited := fun hm => by
    rw [(strContains_iff _ _).mpr hm] at hvis
    cases hvis
  have hns : name ∉ st.recursion_stack := fun hm => by
    rw [(strContains_iff _ _).mpr hm] at hstack
    cases hstack
  have hno : name ∉ st.deployment_order := fun hm =>
    hnv ((hgood.visited_iff _).mpr (Or.inr hm))
  have hsiv : setInsert name st.visited = name :: st.visited := setInsert_eq_cons hvis
  have hsis : setInsert name st.recursion_stack = name :: st.recursion_stack :=
    setInsert_eq_cons hstack
  refine { order_nodup := hgood.order_nodup, stack_nodup := ?_,
           visited_iff := ?_, stack_order_disjoint := ?_,
           order_closed := hgood.order_closed,
           order_sorted := hgood.order_sorted,
           order_irrefl := hgood.order_irrefl }
  · show (setInsert name st.recursion_stack).Nodup
    rw [hsis]
    exact List.nodup_cons.mpr ⟨hns, hgood.stack_nodup⟩
  · intro x
    show x ∈ setInsert name st.visited ↔ _
    rw [hsiv, hsis]
    simp only [List.mem_cons]
    constructor
    · rintro (hx | hx)
      · exact Or.inl (Or.inl hx)
      · rcases (hgood.visited_iff x).mp hx with hs1 | ho1
        · exact Or.inl (Or.inr hs1)
        · exact Or.inr ho1
    · rintro ((hx | hx) | hx)
      · exact Or.inl hx
      · exact Or.inr ((hgood.visited_iff x).mpr (Or.inl hx))
      · exact Or.inr ((hgood.visited_iff x).mpr (Or.inr hx))
  · intro x hx
    rw [show (⟨setInsert name st.visited, setInsert name st.recursion_stack,
        st.deployment_order⟩ : DfsState).recursion_stack =
        setInsert name st.recursion_stack from rfl, hsis] at hx
    rcases List.mem_cons.mp hx with rfl | hx'
    · exact hno
    · exact hgood.stack_order_disjoint x hx'

/-- Every successful `resolveRec` call satisfies its post-conditions (no
acyclicity or token hypotheses needed: this is about what success implies). -/
theorem recPost_of_ok : ∀ (fuel : Nat) (reg : ServiceRegistry) (s : DiscoveredService)
    (st st' : DfsState), reg.WF → GoodState reg st → Keyed reg s →
    resolveRec reg fuel s st = .ok st' → RecPost reg s st st' := by
  intro fuel
  induction fuel with
  | zero =>
    intro reg s st st' _ _ _ h
    rw [resolveRec_zero] at h
    cases h
  | succ fuel ih =>
    intro reg s st st' hwf hgood hkey h
    cases hstack : st.recursion_stack.contains s.config.name with
    | true =>
      rw [resolveRec_succ_stack fuel hstack] at h
      cases h
    | false =>
      cases hvis : st.visited.contains s.config.name with
      | true =>
        rw [resolveRec_succ_skip fuel hstack hvis] at h
        injection h with h
        subst h
        have hvm : s.config.name ∈ st.visited := (strContains_iff _ _).mp hvis
        have hnstk : s.config.name ∉ st.recursion_stack := fun hm => by
          rw [(strContains_iff _ _).mpr hm] at hstack
          cases hstack
        have hord : s.config.name ∈ st.deployment_order := by
          rcases (hgood.visited_iff _).mp hvm with hstk | hord
          · exact absurd hstk hnstk
          · exact hord
        exact { stack_eq := rfl, order_prefix := List.prefix_refl _,
                visited_mono := fun _ hx => hx,
                name_in_order := hord, good := hgood,
                visited_new_reachable := fun x hx => Or.inl hx,
                reachable_visited := fun x hrtg => (hgood.visited_iff x).mpr
                  (Or.inr (order_reach_closed hgood hrtg hord)) }
      | false =>
        have hnv : s.config.name ∉ st.visited := fun hm => by
          rw [(strContains_iff _ _).mpr hm] at hvis
          cases hvis
        have hns : s.config.name ∉ st.recursion_stack := fun hm => by
          rw [(strContains_iff _ _).mpr hm] at hstack
          cases hstack
        have hno : s.config.name ∉ st.deployment_order := fun hm =>
          hnv ((hgood.visited_iff _).mpr (Or.inr hm))
        have hsiv : setInsert s.config.name st.visited = s.config.name :: st.visited :=
          setInsert_eq_cons hvis
        have hsis : setInsert s.config.name st.recursion_stack =
            s.config.name :: st.recursion_stack := setInsert_eq_cons hstack
        rw [resolveRec_succ_full fuel hstack hvis] at h
        cases hloop : depsLoop reg (resolveRec reg fuel) s.path s.config.depends
            ⟨setInsert s.config.name st.visited, setInsert s.config.name st.recursion_stack,
             st.deployment_order⟩ with
        | error e =>
          rw [hloop] at h
          cases h
        | ok st2 =>
          rw [hloop] at h
          injection h with h
          subst h
          have hgood1 := goodState_insert hgood hstack hvis
          have hloopPost := loopPost_of_step reg hwf s (resolveRec reg fuel)
            (fun ds stA stB hg hk hok => ih reg ds stA stB hwf hg hk hok)
            s.config.depends _ st2 hgood1 hloop
          have hstack2 : st2.recursion_stack = s.config.name :: st.recursion_stack := by
            rw [hloopPost.stack_eq]
            exact hsis
          have hname_stack2 : s.config.name ∈ st2.recursion_stack := by
            rw [hstack2]
            exact List.mem_cons_self _ _
          have hname_no2 : s.config.name ∉ st2.deployment_order :=
            hloopPost.good.stack_order_disjoint _ hname_stack2
          have hsteq : st2.recursion_stack.erase s.config.name = st.recursion_stack := by
            rw [hstack2]
            exact List.erase_cons_head _ _
          have hvis1 : s.config.name ∈ st2.visited := by
            apply hloopPost.visited_mono
            show s.config.name ∈ setInsert s.config.name st.visited
            rw [hsiv]
            exact List.mem_cons_self _ _
          have hdeps_in_order : ∀ y, dependsOn reg s.config.name y →
              y ∈ st2.deployment_order := by
            intro y hy
            obtain ⟨dep, hdep, hres, hsome⟩ := edge_elim hkey hy
            exact (hloopPost.dep_targets dep hdep y hres hsome).1
          refine { stack_eq := hsteq, order_prefix := ?_,
                   visited_mono := ?_, name_in_order := ?_,
                   good := ?_, visited_new_reachable := ?_, reachable_visited := ?_ }
          · calc st.deployment_order <+: st2.deployment_order := hloopPost.order_prefix
              _ <+: st2.deployment_order ++ [s.config.name] := List.prefix_append _ _
          · intro x hx
            apply hloopPost.visited_mono
            show x ∈ setInsert s.config.name st.visited
            rw [hsiv]
            exact List.mem_cons_of_mem _ hx
          · exact List.mem_append.mpr (Or.inr (List.mem_singleton.mpr rfl))
          · refine { order_nodup := ?_, stack_nodup := ?_, visited_iff := ?_,
                     stack_order_disjoint := ?_, order_closed := ?_,
                     order_sorted := ?_, order_irrefl := ?_ }
            · apply List.nodup_append.mpr
              exact ⟨hloopPost.good.order_nodup, List.nodup_singleton _,
                fun a ha ha' => hname_no2 ((List.mem_singleton.mp ha') ▸ ha)⟩
            · show (st2.recursion_stack.erase s.config.name).Nodup
              rw [hsteq]
              exact hgood.stack_nodup
            · intro x
              show x ∈ st2.visited ↔ x ∈ st2.recursion_stack.erase s.config.name ∨
                x ∈ st2.deployment_order ++ [s.config.name]
              rw [hsteq]
              by_cases hxn : x = s.config.name
              · subst hxn
                constructor
                · intro _
                  exact Or.inr (List.mem_append.mpr (Or.inr (List.mem_singleton.mpr rfl)))
                · intro _
                  exact hvis1
              · rw [(hloopPost.good.visited_iff x), hstack2]
                constructor
                · rintro (hx | hx)
                  · rcases List.mem_cons.mp hx with heq | hx'
                    · exact absurd heq hxn
                    · exact Or.inl hx'
                  · exact Or.inr (List.mem_append.mpr (Or.inl hx))
                · rintro (hx | hx)
                  · exact Or.inl (List.mem_cons_of_mem _ hx)
                  · rcases List.mem_append.mp hx with hx' | hx'
                    · exact Or.inr hx'
                    · exact absurd (List.mem_singleton.mp hx') hxn
            · intro x hx
              rw [show (⟨st2.visited, st2.recursion_stack.erase s.config.name,
                  st2.deployment_order ++ [s.config.name]⟩ : DfsState).recursion_stack =
                  st2.recursion_stack.erase s.config.name from rfl, hsteq] at hx
              intro hmem
              have hxn : x ≠ s.config.name := fun heq => hns (heq ▸ hx)
              have hx2 : x ∈ st2.recursion_stack := by
                rw [hstack2]
                exact List.mem_cons_of_mem _ hx
              rcases List.mem_append.mp hmem with hm | hm
              · exact hloopPost.good.stack_order_disjoint x hx2 hm
              · exact hxn (List.mem_singleton.mp hm)
            · intro x hx y hy
              rcases List.mem_append.mp hx with hx' | hx'
              · exact List.mem_append.mpr
                  (Or.inl (hloopPost.good.order_closed x hx' y hy))
              · have hxn := List.mem_singleton.mp hx'
                subst hxn
                exact List.mem_append.mpr (Or.inl (hdeps_in_order y hy))
            · apply List.pairwise_append.mpr
              refine ⟨hloopPost.good.order_sorted, List.pairwise_singleton _ _, ?_⟩
              intro u hu v hv hdep
              have hvn := List.mem_singleton.mp hv
              subst hvn
              exact hname_no2 (hloopPost.good.order_closed u hu _ hdep)
            · intro x hx hdep
              rcases List.mem_append.mp hx with hx' | hx'
              · exact hloopPost.good.order_irrefl x hx' hdep
              · have hxn := List.mem_singleton.mp hx'
                subst hxn
                exact hname_no2 (hdeps_in_order _ hdep)
          · intro x hx
            rcases hloopPost.visited_new_via x hx with hx1 | ⟨dep, hdep, y, hres, hsome, hrtg⟩
            · rw [show (⟨setInsert s.config.name st.visited,
                  setInsert s.config.name st.recursion_stack,
                  st.deployment_order⟩ : DfsState).visited =
                  setInsert s.config.name st.visited from rfl, hsiv] at hx1
              rcases List.mem_cons.mp hx1 with rfl | hx2
              · exact Or.inr Relation.ReflTransGen.refl
              · exact Or.inl hx2
            · exact Or.inr (Relation.ReflTransGen.head
                (edge_intro hkey hdep hres hsome) hrtg)
          · intro x hrtg
            rcases Relation.ReflTransGen.cases_head hrtg with heq | ⟨y, hedge, hrtg2⟩
            · subst heq
              exact hvis1
            · obtain ⟨dep, hdep, hres, hsome⟩ := edge_elim hkey hedge
              exact (hloopPost.dep_targets dep hdep y hres hsome).2 x hrtg2

/-- The progress side of the dependency loop: with resolvable tokens, the
loop either succeeds or propagates a cycle error whose named service really
lies on a cycle (parameterized over the behaviour of the recursive step). -/
theorem loopProgress (reg : ServiceRegistry) (hwf : reg.WF) (htok : TokensOk reg)
    (s : DiscoveredService) (hkey : Keyed reg s)
    (step : DiscoveredService → DfsState → Except EnvieError DfsState) (bound : Nat)
    (hstepPost : ∀ ds stA stB, GoodState reg stA → Keyed reg ds → step ds stA = .ok stB →
      RecPost reg ds stA stB)
    (hstepProg : ∀ ds stA, GoodState reg stA → Keyed reg ds →
      (∀ x ∈ stA.recursion_stack, Relation.TransGen (dependsOn reg) x ds.config.name) →
      unvisitedCount reg stA.visited < bound →
      (∃ stB, step ds stA = .ok stB) ∨
      (∃ c, step ds stA = .error (.DependencyError
          ("Cyclic dependency detected involving service " ++ c)) ∧
        Relation.TransGen (dependsOn reg) c c)) :
    ∀ (deps : List String) (st : DfsState), GoodState reg st →
      deps ⊆ s.config.depends →
      (∀ x ∈ st.recursion_stack, Relation.ReflTransGen (dependsOn reg) x s.config.name) →
      unvisitedCount reg st.visited < bound →
      (∃ st', depsLoop reg step s.path deps st = .ok st') ∨
      (∃ c, depsLoop reg step s.path deps st = .error (.DependencyError
          ("Cyclic dependency detected involving service " ++ c)) ∧
        Relation.TransGen (dependsOn reg) c c) := by
  intro deps
  induction deps with
  | nil =>
    intro st _ _ _ _
    exact Or.inl ⟨st, rfl⟩
  | cons dep rest ih =>
    intro st hgood hsub hcontract hcount
    have hmem : (s.config.name, s) ∈ reg.services := lookup_mem hkey
    have hdep : dep ∈ s.config.depends := hsub (List.mem_cons_self _ _)
    have htokOk := htok (s.config.name, s) hmem dep hdep
    cases hres : reg.resolve_dependency_name dep s.path with
    | error e =>
      rw [hres] at htokOk
      simp [Except.isOk, Except.toBool] at htokOk
    | ok y =>
      cases hl : lookupKey y reg.services with
      | none =>
        have heq : depsLoop reg step s.path (dep :: rest) st =
            depsLoop reg step s.path rest st := by
          simp only [depsLoop, hres, hl]
        rw [heq]
        exact ih st hgood (fun d hd => hsub (List.mem_cons_of_mem _ hd)) hcontract hcount
      | some ds =>
        have hkds : Keyed reg ds := wf_keyed hwf hl
        have hyname : y = ds.config.name := wf_name_eq hwf hl
        have hedge : dependsOn reg s.config.name ds.config.name := by
          rw [← hyname]
          exact edge_intro hkey hdep hres (by rw [hl]; rfl)
        have hcontract' : ∀ x ∈ st.recursion_stack,
            Relation.TransGen (dependsOn reg) x ds.config.name :=
          fun x hx => Relation.TransGen.tail' (hcontract x hx) hedge
        rcases hstepProg ds st hgood hkds hcontract' hcount with ⟨stB, hokB⟩ | ⟨c, herr, hc⟩
        · have hpost := hstepPost ds st stB hgood hkds hokB
          have heq : depsLoop reg step s.path (dep :: rest) st =
              depsLoop reg step s.path rest stB := by
            simp only [depsLoop, hres, hl, hokB]
          rw [heq]
          apply ih stB hpost.good (fun d hd => hsub (List.mem_cons_of_mem _ hd))
          · rw [hpost.stack_eq]
            exact hcontract
          · refine lt_of_le_of_lt (unvisitedCount_mono reg ?_) hcount
            intro x hx
            exact (strContains_iff _ _).mpr
              (hpost.visited_mono x ((strContains_iff _ _).mp hx))
        · refine Or.inr ⟨c, ?_, hc⟩
          simp only [depsLoop, hres, hl, herr]

/-- The DFS, run with enough fuel on resolvable tokens, either succeeds or
fails with the cycle error, naming a service that really lies on a dependency
cycle. -/
theorem resolveRec_ok_or_cycle : ∀ (fuel : Nat) (reg : ServiceRegistry)
    (s : DiscoveredService) (st : DfsState), reg.WF → TokensOk reg →
    GoodState reg st → Keyed reg s →
    (∀ x ∈ st.recursion_stack, Relation.TransGen (dependsOn reg) x s.config.name) →
    unvisitedCount reg st.visited < fuel →
    (∃ st', resolveRec reg fuel s st = .ok st') ∨
    (∃ c, resolveRec reg fuel s st = .error (.DependencyError
        ("Cyclic dependency detected involving service " ++ c)) ∧
      Relation.TransGen (dependsOn reg) c c) := by
  intro fuel
  induction fuel with
  | zero =>
    intro reg s st _ _ _ _ _ hcount
    exact absurd hcount (Nat.not_lt_zero _)
  | succ fuel ih =>
    intro reg s st hwf htok hgood hkey hcontract hcount
    cases hstack : st.recursion_stack.contains s.config.name with
    | true =>
      right
      exact ⟨s.config.name, resolveRec_succ_stack fuel hstack,
        hcontract _ ((strContains_iff _ _).mp hstack)⟩
    | false =>
      cases hvis : st.visited.contains s.config.name with
      | true =>
        exact Or.inl ⟨st, resolveRec_succ_skip fuel hstack hvis⟩
      | false =>
        have hgood1 := goodState_insert hgood hstack hvis
        have hcount1 : unvisitedCount reg (setInsert s.config.name st.visited) < fuel := by
          rw [setInsert_eq_cons hvis]
          have hstrict := unvisitedCount_strict reg (keyed_name_mem hkey) hvis
          omega
        have hcontract1 : ∀ x ∈ (⟨setInsert s.config.name st.visited,
            setInsert s.config.name st.recursion_stack,
            st.deployment_order⟩ : DfsState).recursion_stack,
            Relation.ReflTransGen (dependsOn reg) x s.config.name := by
          intro x hx
          rw [show (⟨setInsert s.config.name st.visited,
              setInsert s.config.name st.recursion_stack,
              st.deployment_order⟩ : DfsState).recursion_stack =
              setInsert s.config.name st.recursion_stack from rfl,
            setInsert_eq_cons hstack] at hx
          rcases List.mem_cons.mp hx with rfl | hx'
          · exact Relation.ReflTransGen.refl
          · exact (hcontract x hx').to_reflTransGen
        rcases loopProgress reg hwf htok s hkey (resolveRec reg fuel) fuel
            (fun ds stA stB hg hk hok => recPost_of_ok fuel reg ds stA stB hwf hg hk hok)
            (fun ds stA hg hk hc hcnt => ih reg ds stA hwf htok hg hk hc hcnt)
            s.config.depends _ hgood1 (fun d hd => hd) hcontract1 hcount1 with
          hok2 | herr2
        · obtain ⟨st2, hok2⟩ := hok2
          exact Or.inl ⟨⟨st2.visited, st2.recursion_stack.erase s.config.name,
            st2.deployment_order ++ [s.config.name]⟩,
            by rw [resolveRec_succ_full fuel hstack hvis, hok2]⟩
        · obtain ⟨c, herr2, hc2⟩ := herr2
          right
          refine ⟨c, ?_, hc2⟩
          rw [resolveRec_succ_full fuel hstack hvis, herr2]

theorem goodState_init (reg : ServiceRegistry) : GoodState reg ⟨[], [], []⟩ :=
  { order_nodup := List.nodup_nil, stack_nodup := List.nodup_nil,
    visited_iff := by simp, stack_order_disjoint := by simp,
    order_closed := by simp, order_sorted := List.Pairwise.nil,
    order_irrefl := by simp }

theorem resolve_dependencies_unfold {reg : ServiceRegistry} {target : String}
    {s : DiscoveredService} (hs : lookupKey target reg.services = some s) :
    reg.resolve_dependencies target =
      match resolveRec reg (reg.services.length + 1) s ⟨[], [], []⟩ with
      | .error e => .error e
      | .ok st => .ok st.deployment_order := by
  simp only [ServiceRegistry.resolve_dependencies, hs]

/-! ### Claim theorems: Dependency Graph Resolver -/

/-- Counterexample to C1 as stated: a registry whose dependency graph
restricted to registered services is acyclic (its single service has no
resolvable edge at all) on which `resolve_dependencies` nevertheless fails,
because its relative-path token does not resolve. -/
theorem c1_counterexample :
    Acyclic badTokenReg ∧
    badTokenReg.resolve_dependencies "a" =
      .error (.ValidationError
        "Dependency '../missing' not found - service 'missing' does not exist") :=
  ⟨acyclic_of_rank_check badTokenReg (fun _ => 0) (by decide), by decide⟩

/-- Claim C1 (amended): for every well-formed registry whose dependency graph
restricted to registered services is acyclic and all of whose dependency
tokens resolve, `resolve_dependencies` on a registered target succeeds and
returns a duplicate-free list containing exactly the transitively reachable
registered services, each strictly after all of its transitive dependencies,
with the target last (so diamond dependencies collapse to one entry). -/
theorem c1_toposort (reg : ServiceRegistry) (target : String)
    (hwf : reg.WF) (htok : TokensOk reg) (hacyc : Acyclic reg)
    (hs : (lookupKey target reg.services).isSome = true) :
    ∃ L, reg.resolve_dependencies target = .ok L ∧ L.Nodup ∧
      (∀ x, x ∈ L ↔ Relation.ReflTransGen (dependsOn reg) target x) ∧
      (∀ l1 x l2, L = l1 ++ x :: l2 → ∀ y,
        Relation.TransGen (dependsOn reg) x y → y ∈ l1) ∧
      L.getLast? = some target := by
  obtain ⟨s, hsome⟩ : ∃ s, lookupKey target reg.services = some s := by
    cases hv : lookupKey target reg.services with
    | none => rw [hv] at hs; simp at hs
    | some s => exact ⟨s, rfl⟩
  have hname : target = s.config.name := wf_name_eq hwf hsome
  have hkey : Keyed reg s := wf_keyed hwf hsome
  rcases resolveRec_ok_or_cycle (reg.services.length + 1) reg s ⟨[], [], []⟩ hwf htok
      (goodState_init reg) hkey (by simp) (unvisitedCount_init_lt reg) with
    hok | herr
  swap
  · obtain ⟨c, _, hc⟩ := herr
    exact absurd hc (hacyc c)
  obtain ⟨st', hok⟩ := hok
  have hpost := recPost_of_ok _ reg s _ st' hwf (goodState_init reg) hkey hok
  have hstack' : st'.recursion_stack = [] := hpost.stack_eq
  refine ⟨st'.deployment_order, ?_, hpost.good.order_nodup, ?_, ?_, ?_⟩
  · rw [resolve_dependencies_unfold hsome, hok]
  · intro x
    constructor
    · intro hx
      have hv : x ∈ st'.visited := (hpost.good.visited_iff x).mpr (Or.inr hx)
      rcases hpost.visited_new_reachable x hv with h0 | hr
      · cases h0
      · rw [hname]
        exact hr
    · intro hr
      rw [hname] at hr
      have hv := hpost.reachable_visited x hr
      rcases (hpost.good.visited_iff x).mp hv with hstk | hord
      · rw [hstack'] at hstk
        cases hstk
      · exact hord
  · exact topo_split hpost.good.order_closed hpost.good.order_sorted
      hpost.good.order_irrefl
  · have h0 : (([] : List String)).contains s.config.name = false := rfl
    rw [resolveRec_succ_full reg.services.length h0 h0] at hok
    cases hloop : depsLoop reg (resolveRec reg reg.services.length) s.path
        s.config.depends ⟨setInsert s.config.name [], setInsert s.config.name [], []⟩ with
    | error e =>
      rw [hloop] at hok
      cases hok
    | ok st2 =>
      rw [hloop] at hok
      injection hok with hok
      rw [← hok]
      show (st2.deployment_order ++ [s.config.name]).getLast? = some target
      rw [List.getLast?_concat, hname]

/-- Witness for the amended C1 at the spec's diamond example
`a → {b, c} → d`: resolution succeeds, the order is `[d, b, c, a]`, so `d`
appears exactly once before `b` and `c`, with `a` last. -/
theorem c1_toposort_witness :
    diamondReg.WF ∧ TokensOk diamondReg ∧ Acyclic diamondReg ∧
    (lookupKey "a" diamondReg.services).isSome = true ∧
    diamondReg.resolve_dependencies "a" = .ok ["d", "b", "c", "a"] ∧
    (∃ L, diamondReg.resolve_dependencies "a" = .ok L ∧ L.Nodup ∧
      (∀ x, x ∈ L ↔ Relation.ReflTransGen (dependsOn diamondReg) "a" x) ∧
      (∀ l1 x l2, L = l1 ++ x :: l2 → ∀ y,
        Relation.TransGen (dependsOn diamondReg) x y → y ∈ l1) ∧
      L.getLast? = some "a") :=
  ⟨by unfold ServiceRegistry.WF; decide, by unfold TokensOk; decide,
   acyclic_of_rank_check diamondReg
     (fun s => if s = "a" then 2 else if s = "d" then 0 else 1) (by decide),
   by decide, by decide,
   c1_toposort diamondReg "a" (by unfold ServiceRegistry.WF; decide)
     (by unfold TokensOk; decide)
     (acyclic_of_rank_check diamondReg
       (fun s => if s = "a" then 2 else if s = "d" then 0 else 1) (by decide))
     (by decide)⟩

/-- Counterexample to C2 as stated: a registry with a reachable dependency
cycle (`a → b → a`) whose cycle-opening service also carries an unresolvable
relative-path token; resolution fails, but with a `ValidationError` from the
token, not with the claimed `DependencyError`. -/
theorem c2_counterexample :
    Relation.TransGen (dependsOn badTokenCycleReg) "a" "a" ∧
    badTokenCycleReg.resolve_dependencies "a" =
      .error (.ValidationError
        "Dependency '../missing' not found - service 'missing' does not exist") ∧
    isDependencyErrorB (badTokenCycleReg.resolve_dependencies "a") = false :=
  ⟨Relation.TransGen.head ((dependsOn_iff_B badTokenCycleReg "a" "b").mpr (by decide))
     (Relation.TransGen.single ((dependsOn_iff_B badTokenCycleReg "b" "a").mpr (by decide))),
   by decide, by decide⟩

/-- Claim C2 (amended): when a dependency cycle among registered services is
reachable from the registered target, `resolve_dependencies` never returns an
order (it cannot silently break the cycle), and — provided every dependency
token resolves — it fails with a `DependencyError` whose message names a
service lying on a dependency cycle. -/
theorem c2_cycle_detected (reg : ServiceRegistry) (target c0 : String)
    (hwf : reg.WF) (hs : (lookupKey target reg.services).isSome = true)
    (hreach : Relation.ReflTransGen (dependsOn reg) target c0)
    (hcyc : Relation.TransGen (dependsOn reg) c0 c0) :
    (∀ L, reg.resolve_dependencies target = .ok L → False) ∧
    (TokensOk reg → ∃ c, reg.resolve_dependencies target =
        .error (.DependencyError ("Cyclic dependency detected involving service " ++ c)) ∧
      Relation.TransGen (dependsOn reg) c c) := by
  obtain ⟨s, hsome⟩ : ∃ s, lookupKey target reg.services = some s := by
    cases hv : lookupKey target reg.services with
    | none => rw [hv] at hs; simp at hs
    | some s => exact ⟨s, rfl⟩
  have hname : target = s.config.name := wf_name_eq hwf hsome
  have hkey : Keyed reg s := wf_keyed hwf hsome
  have hnotok : ∀ L, reg.resolve_dependencies target = .ok L → False := by
    intro L hokL
    rw [resolve_dependencies_unfold hsome] at hokL
    cases hrec : resolveRec reg (reg.services.length + 1) s ⟨[], [], []⟩ with
    | error e =>
      rw [hrec] at hokL
      cases hokL
    | ok st' =>
      have hpost := recPost_of_ok _ reg s _ st' hwf (goodState_init reg) hkey hrec
      have hv := hpost.reachable_visited c0 (hname ▸ hreach)
      have hc0 : c0 ∈ st'.deployment_order := by
        rcases (hpost.good.visited_iff c0).mp hv with hstk | hord
        · rw [hpost.stack_eq] at hstk
          cases hstk
        · exact hord
      obtain ⟨l1, l2, hsplit⟩ := List.append_of_mem hc0
      have hin := topo_split hpost.good.order_closed hpost.good.order_sorted
        hpost.good.order_irrefl l1 c0 l2 hsplit c0 hcyc
      have hnd := hpost.good.order_nodup
      rw [hsplit] at hnd
      exact (List.nodup_append.mp hnd).2.2 hin (List.mem_cons_self _ _)
  refine ⟨hnotok, ?_⟩
  intro htok
  rcases resolveRec_ok_or_cycle (reg.services.length + 1) reg s ⟨[], [], []⟩ hwf htok
      (goodState_init reg) hkey (by simp) (unvisitedCount_init_lt reg) with
    hok | herr
  · obtain ⟨st', hok⟩ := hok
    exfalso
    apply hnotok st'.deployment_order
    rw [resolve_dependencies_unfold hsome, hok]
  · obtain ⟨c, herr, hc⟩ := herr
    exact ⟨c, by rw [resolve_dependencies_unfold hsome, herr], hc⟩

/-- Witness for the amended C2 at the two-cycle registry `a ↔ b`: resolution
fails with the `DependencyError` naming `a`, which lies on the cycle. -/
theorem c2_cycle_detected_witness :
    cycleReg.WF ∧ (lookupKey "a" cycleReg.services).isSome = true ∧
    Relation.TransGen (dependsOn cycleReg) "a" "a" ∧ TokensOk cycleReg ∧
    ∃ c, cycleReg.resolve_dependencies "a" =
        .error (.DependencyError ("Cyclic dependency detected involving service " ++ c)) ∧
      Relation.TransGen (dependsOn cycleReg) c c :=
  ⟨by unfold ServiceRegistry.WF; decide, by decide,
   Relation.TransGen.head ((dependsOn_iff_B cycleReg "a" "b").mpr (by decide))
     (Relation.TransGen.single ((dependsOn_iff_B cycleReg "b" "a").mpr (by decide))),
   by unfold TokensOk; decide,
   (c2_cycle_detected cycleReg "a" "a" (by unfold ServiceRegistry.WF; decide) (by decide)
     Relation.ReflTransGen.refl
     (Relation.TransGen.head ((dependsOn_iff_B cycleReg "a" "b").mpr (by decide))
       (Relation.TransGen.single ((dependsOn_iff_B cycleReg "b" "a").mpr (by decide))))).2
     (by unfold TokensOk; decide)⟩

/-- Counterexample to C3 as stated: the unresolvable relative-path token
`../missing` makes `resolve_dependencies` fail, but with a `ValidationError`,
not with the claimed `DependencyError`. -/
theorem c3_counterexample :
    strStartsWith "../missing" "../" = true ∧
    lookupKey "missing" badTokenReg.services = none ∧
    badTokenReg.resolve_dependencies "a" =
      .error (.ValidationError
        "Dependency '../missing' not found - service 'missing' does not exist") ∧
    isDependencyErrorB (badTokenReg.resolve_dependencies "a") = false := by
  refine ⟨by decide, by decide, by decide, by decide⟩

/-- Claim C3 (amended): a relative-path dependency token whose final resolved
path component names no registered service makes `resolve_dependency_name`
fail with a `ValidationError` (not a `DependencyError`) whose message names
the token and the missing service, and `resolve_dependencies` on a registered
service whose first dependency token it is propagates exactly that error. -/
theorem c3_bad_relative_token (reg : ServiceRegistry) (dep : String) (p : FsPath)
    (f : String)
    (hpre : strStartsWith dep "../" = true)
    (hne : p ≠ [])
    (hf : fileName (p.dropLast ++ pathComponents dep) = some f)
    (hmiss : lookupKey f reg.services = none) :
    reg.resolve_dependency_name dep p =
      .error (.ValidationError ("Dependency '" ++ dep ++
        "' not found - service '" ++ f ++ "' does not exist")) ∧
    ∀ target s rest,
      lookupKey target reg.services = some s →
      s.path = p → s.config.depends = dep :: rest →
      reg.resolve_dependencies target =
        .error (.ValidationError ("Dependency '" ++ dep ++
          "' not found - service '" ++ f ++ "' does not exist")) := by
  have h1 : reg.resolve_dependency_name dep p =
      .error (.ValidationError ("Dependency '" ++ dep ++
        "' not found - service '" ++ f ++ "' does not exist")) := by
    cases p with
    | nil => exact absurd rfl hne
    | cons c cs =>
      rw [ServiceRegistry.resolve_dependency_name.eq_def, if_pos hpre]
      simp only [hf, hmiss, Option.isSome_none, Bool.false_eq_true, if_false]
  refine ⟨h1, ?_⟩
  intro target s rest hsome hpath hdeps
  have h0 : (([] : List String)).contains s.config.name = false := rfl
  rw [resolve_dependencies_unfold hsome, resolveRec_succ_full reg.services.length h0 h0,
    hdeps, hpath]
  have hloop : depsLoop reg (resolveRec reg reg.services.length) p (dep :: rest)
      ⟨setInsert s.config.name [], setInsert s.config.name [], []⟩ =
      .error (.ValidationError ("Dependency '" ++ dep ++
        "' not found - service '" ++ f ++ "' does not exist")) := by
    simp only [depsLoop, h1]
  rw [hloop]

/-- Witness for the amended C3 at `badTokenReg`: the single service `a` at
path `services/a` declares `../missing`; both the token-level resolution and
the full `resolve_dependencies "a"` fail with the `ValidationError`. -/
theorem c3_bad_relative_token_witness :
    strStartsWith "../missing" "../" = true ∧
    (["services", "a"] : FsPath) ≠ [] ∧
    fileName ((["services", "a"] : FsPath).dropLast ++ pathComponents "../missing") =
      some "missing" ∧
    lookupKey "missing" badTokenReg.services = none ∧
    (badTokenReg.resolve_dependency_name "../missing" ["services", "a"] =
      .error (.ValidationError ("Dependency '" ++ "../missing" ++
        "' not found - service '" ++ "missing" ++ "' does not exist")) ∧
    ∀ target s rest,
      lookupKey target badTokenReg.services = some s →
      s.path = ["services", "a"] → s.config.depends = "../missing" :: rest →
      badTokenReg.resolve_dependencies target =
        .error (.ValidationError ("Dependency '" ++ "../missing" ++
          "' not found - service '" ++ "missing" ++ "' does not exist"))) :=
  ⟨by decide, by decide, by decide, by decide,
   c3_bad_relative_token badTokenReg "../missing" ["services", "a"] "missing"
     (by decide) (by decide) (by decide) (by decide)⟩

/-- Claim C10: a dependency token without a leading `../` (a bare name or a
`service/module` pair) always resolves to itself at the token level, even
when it names no registered service; and on a well-formed acyclic registry
with resolvable tokens, `resolve_dependencies` on a registered target still
succeeds while the unregistered name never appears in the deployment
order — the dangling token is silently skipped. -/
theorem c10_unregistered_bare_skipped (reg : ServiceRegistry) (target ghost : String)
    (hwf : reg.WF) (htok : TokensOk reg) (hacyc : Acyclic reg)
    (hs : (lookupKey target reg.services).isSome = true)
    (hghost : lookupKey ghost reg.services = none) :
    (∀ dep p, strStartsWith dep "../" = false →
      reg.resolve_dependency_name dep p = .ok dep) ∧
    ∃ L, reg.resolve_dependencies target = .ok L ∧ ghost ∉ L := by
  constructor
  · intro dep p hdep
    rw [ServiceRegistry.resolve_dependency_name.eq_def,
      if_neg (fun hc => absurd (hdep ▸ hc) Bool.false_ne_true)]
    cases dep.data.contains '/' <;> rfl
  · obtain ⟨s, hsome⟩ : ∃ s, lookupKey target reg.services = some s := by
      cases hv : lookupKey target reg.services with
      | none => rw [hv] at hs; simp at hs
      | some s => exact ⟨s, rfl⟩
    have hkey : Keyed reg s := wf_keyed hwf hsome
    rcases resolveRec_ok_or_cycle (reg.services.length + 1) reg s ⟨[], [], []⟩ hwf htok
        (goodState_init reg) hkey (by simp) (unvisitedCount_init_lt reg) with
      hok | herr
    swap
    · obtain ⟨c, _, hc⟩ := herr
      exact absurd hc (hacyc c)
    obtain ⟨st', hok⟩ := hok
    have hpost := recPost_of_ok _ reg s _ st' hwf (goodState_init reg) hkey hok
    refine ⟨st'.deployment_order, by rw [resolve_dependencies_unfold hsome, hok], ?_⟩
    intro hmem
    have hv : ghost ∈ st'.visited := (hpost.good.visited_iff ghost).mpr (Or.inr hmem)
    rcases hpost.visited_new_reachable ghost hv with h0 | hr
    · cases h0
    · rcases Relation.ReflTransGen.cases_tail hr with heq | ⟨c, _, hedge⟩
      · rw [heq, hkey] at hghost
        cases hghost
      · obtain ⟨sa, _, dep, _, _, hsomeg⟩ := hedge
        rw [hghost] at hsomeg
        cases hsomeg

/-- Witness for C10 at `ghostTokenReg` (service `a` declares the dangling
bare token `ghost` next to the registered `b`): the token resolves to itself
and `resolve_dependencies "a"` succeeds with `["b", "a"]`, omitting
`ghost`. -/
theorem c10_unregistered_bare_skipped_witness :
    ghostTokenReg.resolve_dependency_name "ghost" ["services", "a"] = .ok "ghost" ∧
    ghostTokenReg.resolve_dependencies "a" = .ok ["b", "a"] ∧
    (∃ L, ghostTokenReg.resolve_dependencies "a" = .ok L ∧ "ghost" ∉ L) :=
  ⟨(c10_unregistered_bare_skipped ghostTokenReg "a" "ghost"
      (by unfold ServiceRegistry.WF; decide) (by unfold TokensOk; decide)
      (acyclic_of_rank_check ghostTokenReg (fun s => if s = "a" then 1 else 0)
        (by decide))
      (by decide) (by decide)).1 "ghost" ["services", "a"] (by decide),
   by decide,
   (c10_unregistered_bare_skipped ghostTokenReg "a" "ghost"
      (by unfold ServiceRegistry.WF; decide) (by unfold TokensOk; decide)
      (acyclic_of_rank_check ghostTokenReg (fun s => if s = "a" then 1 else 0)
        (by decide))
      (by decide) (by decide)).2⟩

theorem discoverLoop_lookup (fs : FileSystem) :
    ∀ (paths : List FsPath) (acc) (name : String) (svc : DiscoveredService),
      lookupKey name (discoverLoop fs paths acc).1 = some svc →
      lookupKey name acc.1 = some svc ∨
        ∃ sp ∈ paths, discover_service fs sp = .ok svc ∧ svc.config.name = name := by
  intro paths
  induction paths with
  | nil =>
    intro acc name svc h
    exact Or.inl h
  | cons sp rest ih =>
    intro acc name svc h
    cases hds : discover_service fs sp with
    | error e =>
      have heq : discoverLoop fs (sp :: rest) acc = discoverLoop fs rest acc := by
        simp only [discoverLoop, hds]
      rw [heq] at h
      rcases ih acc name svc h with h1 | ⟨sp', hsp', h2⟩
      · exact Or.inl h1
      · exact Or.inr ⟨sp', List.mem_cons_of_mem _ hsp', h2⟩
    | ok service =>
      have heq : discoverLoop fs (sp :: rest) acc = discoverLoop fs rest
          (insertKey service.config.name service acc.1,
           service.modules.foldl
             (fun m dm => insertKey (service.config.name ++ "/" ++ dm.config.name) dm m)
             acc.2) := by
        simp only [discoverLoop, hds]
      rw [heq] at h
      rcases ih _ name svc h with h1 | ⟨sp', hsp', h2⟩
      · rw [lookup_insertKey] at h1
        by_cases hn : service.config.name = name
        · rw [if_pos hn] at h1
          injection h1 with h1
          exact Or.inr ⟨sp, List.mem_cons_self _ _,
            by rw [← h1]; exact hds, by rw [← h1]; exact hn⟩
        · rw [if_neg hn] at h1
          exact Or.inl h1
      · exact Or.inr ⟨sp', List.mem_cons_of_mem _ hsp', h2⟩

/-- Counterexample to C4 as stated: a root with an explicit workspace
manifest declaring the service path `svc`, whose descriptor exists but fails
to parse; discovery nevertheless succeeds with the empty registry instead of
failing with the `ConfigError`. -/
theorem c4_counterexample :
    (find_workspace_config exampleManifestFs ["root"]).isOk = true ∧
    discover_service exampleManifestFs ["root", "svc"] =
      .error (.ConfigError "Failed to parse service config: malformed descriptor") ∧
    discover_from_path exampleManifestFs ["root"] =
      .ok { services := [], modules := [] } := by
  refine ⟨by decide, by decide, by decide⟩

/-- Claim C4 (amended): once the workspace configuration step succeeds,
discovery always succeeds — in explicit-manifest mode just as in implicit
mode, a declared service path whose descriptor is missing or malformed is
silently skipped rather than failing discovery — and every service in the
resulting registry comes from a `discover_service` call that succeeded. -/
theorem c4_explicit_paths_skipped (fs : FileSystem) (root : FsPath) :
    ((find_workspace_config fs root).isOk = true →
      (discover_from_path fs root).isOk = true) ∧
    (∀ paths acc name svc,
      lookupKey name (discoverLoop fs paths acc).1 = some svc →
      lookupKey name acc.1 = some svc ∨
        ∃ sp ∈ paths, discover_service fs sp = .ok svc ∧ svc.config.name = name) := by
  constructor
  · intro hfind
    cases hf : find_workspace_config fs root with
    | error e =>
      rw [hf] at hfind
      cases hfind
    | ok cfg =>
      simp only [discover_from_path, hf]
      rfl
  · exact discoverLoop_lookup fs

/-- Witness for the amended C4 at the malformed-manifest filesystem: the
manifest is found, discovery succeeds anyway, and a lookup in a one-element
accumulator after an empty loop is traced back to the accumulator. -/
theorem c4_explicit_paths_skipped_witness :
    ((find_workspace_config exampleManifestFs ["root"]).isOk = true ∧
     (discover_from_path exampleManifestFs ["root"]).isOk = true) ∧
    (lookupKey "s"
        (discoverLoop exampleManifestFs [] ([("s", mkService "s" ["p"] [])], [])).1 =
      some (mkService "s" ["p"] []) ∧
     (lookupKey "s" [("s", mkService "s" ["p"] [])] = some (mkService "s" ["p"] []) ∨
       ∃ sp ∈ ([] : List FsPath),
         discover_service exampleManifestFs sp = .ok (mkService "s" ["p"] []) ∧
         (mkService "s" ["p"] []).config.name = "s")) :=
  ⟨⟨by decide, (c4_explicit_paths_skipped exampleManifestFs ["root"]).1 (by decide)⟩,
   ⟨by decide,
    (c4_explicit_paths_skipped exampleManifestFs ["root"]).2 []
      (([("s", mkService "s" ["p"] [])], ([] : List (String × DiscoveredModule))))
      "s" (mkService "s" ["p"] []) (by decide)⟩⟩

end Envie

